import Mathlib

set_option linter.unusedVariables false

/-!
# A verification development for the jsonschema-valid validation engine

This file gives a shallow embedding, in Lean 4, of the core of the
jsonschema-valid crate (a JSON Schema validator for drafts 4, 6 and 7):
the JSON data model, the keyword validators of src/validators.rs, the
keyword dispatch of the recursive descent routine, the per-draft keyword
tables of src/schemas.rs, the uniqueness helper of src/unique.rs and the
identifier selection of src/resolver.rs.  Theorems about these embedded
definitions settle the claims of the specification.

Modelling conventions:

* serde_json numbers are a tagged union PosInt(u64) / NegInt(i64) /
  Float(f64).  We keep the three tags (JNum.pos / JNum.neg / JNum.flt);
  float payloads are modelled as exact rationals.  The idealisation of
  f64 arithmetic by rational arithmetic is only ever exercised in this
  file at small integral values, where f64 is exact.
* Rust panics (failing .unwrap() calls, integer remainder by zero) are
  modelled as the explicit outcome RRes.panicked.
* The error-recorder machinery (ErrorRecorder, FastFailErrorRecorder,
  ValidationErrors) and the path-context type used by validators.rs are
  declared outside src/.  Modelled from the spec: the collect-all
  recorder accumulates every error and never interrupts; the fast-fail
  recorder signals stop on the first recorded error; a path context is
  an immutable linked stack of JSON values pushed on descent.  A run in
  collect mode returns RRes.ok with the errors it recorded, a run in
  fast-fail mode returns RRes.stop as soon as an error is recorded.
* External collaborators (the regex engine, the URL resolver behind
  $ref, the string-format predicates of src/format.rs) are parameters
  of the engine, collected in the structure Ext, exactly as the crate
  links against external crates for them.
* The engine recursion is fuelled: descend takes a Nat fuel, consumed
  one unit per nesting level; RRes.fuelout marks exhaustion.  Fuel is an
  artefact of the embedding, not of the program.
-/

namespace JSV

/-- serde_json number: PosInt(u64) for non-negative integers,
NegInt(i64) for negative integers, Float(f64) for floating point
(payload idealised as an exact rational). -/
inductive JNum where
  | pos (n : Nat)
  | neg (n : Int)
  | flt (q : Rat)
deriving DecidableEq

/-- serde_json Value: the JSON tagged union.  Objects are key-value
lists (serde_json uses a BTreeMap; iteration order is its entry order,
which for a materialised map is what the list order represents). -/
inductive Json where
  | null
  | bool (b : Bool)
  | num (n : JNum)
  | str (s : String)
  | arr (items : List Json)
  | obj (entries : List (String × Json))

abbrev Entries := List (String × Json)

mutual

/-- serde_json PartialEq on Value: representation-sensitive structural
equality (numbers compare equal only within the same representation).
This is the equality the crate's ==, enum_, const_ and ValueWrapper::eq
all use. -/
def beqJ : Json → Json → Bool
  | .null, .null => true
  | .bool a, .bool b => a == b
  | .num a, .num b => a == b
  | .str a, .str b => a == b
  | .arr a, .arr b => beqArr a b
  | .obj a, .obj b => beqEntries a b
  | _, _ => false

/-- Element-wise equality of JSON arrays. -/
def beqArr : List Json → List Json → Bool
  | [], [] => true
  | x :: xs, y :: ys => beqJ x y && beqArr xs ys
  | _, _ => false

/-- Entry-wise equality of JSON objects. -/
def beqEntries : List (String × Json) → List (String × Json) → Bool
  | [], [] => true
  | (k1, v1) :: xs, (k2, v2) :: ys => k1 == k2 && beqJ v1 v2 && beqEntries xs ys
  | _, _ => false

end

mutual

theorem beqJ_iff : ∀ (a b : Json), beqJ a b = true ↔ a = b
  | .null, b => by cases b <;> simp [beqJ]
  | .bool a, b => by cases b <;> simp [beqJ]
  | .num a, b => by cases b <;> simp [beqJ]
  | .str a, b => by cases b <;> simp [beqJ]
  | .arr a, b => by
      cases b <;> simp [beqJ]
      exact beqArr_iff a _
  | .obj a, b => by
      cases b <;> simp [beqJ]
      exact beqEntries_iff a _

theorem beqArr_iff : ∀ (a b : List Json), beqArr a b = true ↔ a = b
  | [], b => by cases b <;> simp [beqArr]
  | x :: xs, b => by
      cases b with
      | nil => simp [beqArr]
      | cons y ys => simp [beqArr, beqJ_iff x y, beqArr_iff xs ys]

theorem beqEntries_iff :
    ∀ (a b : List (String × Json)), beqEntries a b = true ↔ a = b
  | [], b => by cases b <;> simp [beqEntries]
  | (k1, v1) :: xs, b => by
      cases b with
      | nil => simp [beqEntries]
      | cons y ys =>
        obtain ⟨k2, v2⟩ := y
        simp [beqEntries, beqJ_iff v1 v2, beqEntries_iff xs ys, and_assoc]

end

instance : DecidableEq Json := fun a b => decidable_of_iff _ (beqJ_iff a b)

/-- Map.get on the schema object: first entry with the given key. -/
def lookupJ : Entries → String → Option Json
  | [], _ => none
  | (k, v) :: rest, key => if k = key then some v else lookupJ rest key

/-- Map.contains_key, which on a map agrees with get(...).is_some(). -/
def containsKeyJ (m : Entries) (key : String) : Bool :=
  (lookupJ m key).isSome

/-- Value.as_object(): Some for objects, None otherwise. -/
def asObject : Json → Option Entries
  | .obj m => some m
  | _ => none

/-- Value.as_array(): Some for arrays, None otherwise. -/
def asArray : Json → Option (List Json)
  | .arr l => some l
  | _ => none

/-- Value.as_str(): Some for strings, None otherwise. -/
def asString : Json → Option String
  | .str s => some s
  | _ => none

/-- Value.as_bool(): Some for booleans, None otherwise. -/
def asBool : Json → Option Bool
  | .bool b => some b
  | _ => none

/-- The if-let Object(_) test on an optional value. -/
def isObjJ : Option Json → Bool
  | some (.obj _) => true
  | _ => false

namespace JNum

/-- Number.is_f64(): true exactly for the Float representation. -/
def isF64 : JNum → Bool
  | .flt _ => true
  | _ => false

/-- Number.is_u64(): true exactly for the PosInt representation. -/
def isU64 : JNum → Bool
  | .pos _ => true
  | _ => false

/-- Number.is_i64(): PosInt within i64 range, or NegInt. -/
def isI64 : JNum → Bool
  | .pos n => decide (n ≤ 2 ^ 63 - 1)
  | .neg _ => true
  | .flt _ => false

/-- Number.as_u64(): the PosInt payload, None for other representations. -/
def asU64 : JNum → Option Nat
  | .pos n => some n
  | _ => none

/-- Number.as_i64(): PosInt payload when it fits in i64, NegInt payload. -/
def asI64 : JNum → Option Int
  | .pos n => if n ≤ 2 ^ 63 - 1 then some (n : Int) else none
  | .neg i => some i
  | .flt _ => none

/-- Number.as_f64(): total on serde numbers; integer-to-float conversion
idealised as exact (exact in f64 for all values this file evaluates). -/
def asF64 : JNum → Rat
  | .pos n => (n : Rat)
  | .neg i => (i : Rat)
  | .flt q => q

end JNum

/-- f64::trunc on the rational idealisation: round toward zero. -/
def rtrunc (q : Rat) : Rat := ((q.num.tdiv (q.den : Int) : Int) : Rat)

/-- A minimal rendering of JSON values, standing in for serde_json
Display in error-message strings.  No theorem in this file depends on
message text beyond the quoted property name of a required error, which
this rendering reproduces for names without escape sequences. -/
def render : Json → String
  | .null => "null"
  | .bool b => if b then "true" else "false"
  | .num _ => "<number>"
  | .str s => "\"" ++ s ++ "\""
  | .arr _ => "<array>"
  | .obj _ => "<object>"

/-- Modelled from the spec: a path context is an immutable linked stack
of JSON values; push is cons, the parent link is the tail. -/
abbrev Ctx := List Json

/-- Modelled from the spec: a validation error carries a message, the
instance context at the failure (absent for schema-only errors) and the
schema context at the failure. -/
structure VErr where
  msg : String
  instCtx : Option Ctx
  schemaCtx : Ctx
deriving DecidableEq

/-- ValidationError::new_with_context. -/
def newWithContext (msg : String) (ictx sctx : Ctx) : VErr :=
  ⟨msg, some ictx, sctx⟩

/-- ValidationError::new_with_schema_context. -/
def newWithSchemaContext (msg : String) (sctx : Ctx) : VErr :=
  ⟨msg, none, sctx⟩

/-- Outcome of running a validator or the descent routine.  ok errs is a
normal return carrying the errors recorded into a collect-all recorder
(always empty in fast-fail mode); stop is the fast-fail recorder's
interruption (the Rust return of None through the ? operator); panicked
models a Rust panic; fuelout marks exhaustion of the embedding fuel. -/
inductive RRes where
  | ok (errs : List VErr)
  | stop
  | panicked
  | fuelout
deriving DecidableEq

/-- Modelled from the spec: the two error-recorder policies. -/
inductive Mode where
  | collect
  | fastfail
deriving DecidableEq

/-- Modelled from the spec: errors.record_error(e)?.  The collect-all
recorder appends and continues; the fast-fail recorder stops. -/
def recordE (m : Mode) (e : VErr) : RRes :=
  match m with
  | .collect => .ok [e]
  | .fastfail => .stop

/-- Sequence a loop body over a list, concatenating recorded errors and
propagating stop, panic and fuel exhaustion (the for-loop with a ?
inside, as the validators write it). -/
def seqList (step : α → RRes) : List α → RRes
  | [] => .ok []
  | x :: xs =>
    match step x with
    | .ok e1 =>
      match seqList step xs with
      | .ok e2 => .ok (e1 ++ e2)
      | r => r
    | r => r

/-- Sequential composition of two recorder-threaded results. -/
def seq2 (a : RRes) (b : RRes) : RRes :=
  match a with
  | .ok e1 =>
    match b with
    | .ok e2 => .ok (e1 ++ e2)
    | r => r
  | r => r

/-- The closed draft enumeration of src/schemas.rs. -/
inductive Draft where
  | draft4
  | draft6
  | draft7
deriving DecidableEq

/-- Draft::get_draft_number. -/
def Draft.number : Draft → Nat
  | .draft4 => 4
  | .draft6 => 6
  | .draft7 => 7

/-- The validation configuration: the draft in use and the root schema
(the resolver is carried by Ext, see below). -/
structure Cfg where
  draft : Draft
  schema : Json

/-- String-format predicate identities of src/format.rs; their
behaviour is external (regex / chrono / url crates), so the predicates
themselves live in Ext. -/
inductive FmtId where
  | date | datetime | email | hostname | ipv4 | ipv6 | iri
  | iriReference | jsonPointer | regexFmt | time | uri
  | uriReference | uriTemplate
deriving DecidableEq

/-- External collaborators of the engine: regex compilation and
matching, the reference resolver (RFC 3986 URL joining plus the index
built at configuration time), and the format predicates. -/
structure Ext where
  regexNew : String → Option (String → Bool)
  resolveFragment : String → Ctx → Json → Except VErr (String × Json)
  runFormat : FmtId → String → Bool

/-! ## util.rs -/

/-- util.rs bool_to_object_schema: normalise a boolean schema to object
shape (true to the empty schema, false to {"not": {}}). -/
def bool_to_object_schema (schema : Json) : Json :=
  match schema with
  | .bool b => if b then .obj [] else .obj [("not", .obj [])]
  | _ => schema

/-- util.rs iter_or_once: the elements of an array, or the single value. -/
def iter_or_once : Json → List Json
  | .arr l => l
  | v => [v]

/-- util.rs json_equal: JSON-Schema equality, comparing numbers through
as_f64.  Documented in the crate as the equality JSON Schema defines; no
validator in src/validators.rs calls it. -/
def json_equal (x y : Json) : Bool :=
  match x, y with
  | .num a, .num b => a.asF64 == b.asF64
  | _, _ => beqJ x y

/-! ## unique.rs -/

/-- unique.rs has_unique_elements: all elements pairwise distinct under
ValueWrapper equality, which is serde PartialEq (beqJ).  The HashSet
insertion loop returns false exactly when two elements are equal. -/
def has_unique_elements : List Json → Bool
  | [] => true
  | x :: xs => !(xs.any (fun y => beqJ y x)) && has_unique_elements xs

/-! ## validators.rs: the keyword validators

descend and the keyword validators are mutually recursive in the
source.  Here every validator takes the callback recf, which stands for
the descent routine at one fuel level less; descend ties the knot
below.  All validators share the uniform signature of the source
(configuration, instance, schema value, parent schema object, the three
contexts, and the recorder mode). -/

abbrev RecFn := Json → Json → Ctx → Ctx → Ctx → Mode → RRes

/-- validators.rs patternProperties. -/
def patternProperties (ext : Ext) (cfg : Cfg) (recf : RecFn)
    (inst schema : Json) (parentm : Entries)
    (ictx sctx rctx : Ctx) (mode : Mode) : RRes :=
  match inst, schema with
  | .obj instm, .obj schemam =>
    seqList (fun (ps : String × Json) =>
      match ext.regexNew ps.1 with
      | some re =>
        seqList (fun (kv : String × Json) =>
          if re kv.1 then
            recf kv.2 ps.2 (.str kv.1 :: ictx) (.str ps.1 :: sctx) rctx mode
          else .ok []) instm
      | none =>
        recordE mode (newWithSchemaContext
          ("Invalid regular expression '" ++ ps.1 ++ "'") sctx)) schemam
  | _, _ => .ok []

/-- validators.rs propertyNames. -/
def propertyNames (ext : Ext) (cfg : Cfg) (recf : RecFn)
    (inst schema : Json) (parentm : Entries)
    (ictx sctx rctx : Ctx) (mode : Mode) : RRes :=
  match inst with
  | .obj instm =>
    seqList (fun (kv : String × Json) =>
      recf (.str kv.1) schema (.str kv.1 :: ictx) sctx rctx mode) instm
  | _ => .ok []

/-- validators.rs find_additional_properties: instance keys matched
neither by properties nor by any compilable patternProperties regex. -/
def find_additional_properties (ext : Ext) (instm parentm : Entries) :
    List String :=
  let props := (lookupJ parentm "properties").bind asObject
  let patternRegexes := ((lookupJ parentm "patternProperties").bind asObject).map
    (fun x => (x.map Prod.fst).filterMap ext.regexNew)
  ((instm.map Prod.fst).filter
    (fun property => !(props.elim false (fun x => containsKeyJ x property)))).filter
    (fun property => !(patternRegexes.elim false (fun x => x.any (fun re => re property))))

/-- validators.rs additionalProperties. -/
def additionalProperties (ext : Ext) (cfg : Cfg) (recf : RecFn)
    (inst schema : Json) (parentm : Entries)
    (ictx sctx rctx : Ctx) (mode : Mode) : RRes :=
  match inst with
  | .obj instm =>
    let extras := find_additional_properties ext instm parentm
    match schema with
    | .obj _ =>
      seqList (fun extra =>
        match lookupJ instm extra with
        | some v => recf v schema (.str extra :: ictx) sctx rctx mode
        | none => .panicked) extras
    | .bool b =>
      if !b && !extras.isEmpty then
        recordE mode (newWithContext
          ("Additional properties are not allowed. Found " ++
            String.intercalate ", " extras) ictx sctx)
      else .ok []
    | _ => .ok []
  | _ => .ok []

/-- validators.rs items. -/
def items (ext : Ext) (cfg : Cfg) (recf : RecFn)
    (inst schema : Json) (parentm : Entries)
    (ictx sctx rctx : Ctx) (mode : Mode) : RRes :=
  match inst with
  | .arr instl =>
    let its := bool_to_object_schema schema
    match its with
    | .obj _ =>
      seqList (fun (iv : Nat × Json) =>
        recf iv.2 its (.num (.pos iv.1) :: ictx) sctx rctx mode) instl.enum
    | .arr subl =>
      seqList (fun (p : (Nat × Json) × Json) =>
        recf p.1.2 p.2 (.num (.pos p.1.1) :: ictx)
          (.num (.pos p.1.1) :: sctx) rctx mode) (instl.enum.zip subl)
    | _ => .ok []
  | _ => .ok []

/-- validators.rs additionalItems: inert without a sibling items key,
or when items is object-valued; otherwise the tuple length is the
length of items when it is an array and zero when it is not. -/
def additionalItems (ext : Ext) (cfg : Cfg) (recf : RecFn)
    (inst schema : Json) (parentm : Entries)
    (ictx sctx rctx : Ctx) (mode : Mode) : RRes :=
  if !(containsKeyJ parentm "items") then .ok []
  else if isObjJ (lookupJ parentm "items") then .ok []
  else
    match inst with
    | .arr instl =>
      let len_items := ((lookupJ parentm "items").bind asArray).elim 0 List.length
      match schema with
      | .obj _ =>
        seqList (fun (iv : Nat × Json) =>
          recf iv.2 schema (.num (.pos iv.1) :: ictx) sctx rctx mode)
          (instl.enum.drop len_items)
      | .bool b =>
        if !b && decide (len_items < instl.length) then
          recordE mode (newWithContext "Additional items are not allowed" ictx sctx)
        else .ok []
      | _ => .ok []
    | _ => .ok []

/-- validators.rs const_, using serde equality. -/
def const_ (ext : Ext) (cfg : Cfg) (recf : RecFn)
    (inst schema : Json) (parentm : Entries)
    (ictx sctx rctx : Ctx) (mode : Mode) : RRes :=
  if !(beqJ inst schema) then
    recordE mode (newWithContext "const does not match" ictx sctx)
  else .ok []

/-- The element scan of validators.rs contains: stop at the first
element whose fast-fail descent succeeds. -/
def containsScan (recf : RecFn) (schema : Json) (ictx sctx rctx : Ctx)
    (mode : Mode) : List (Nat × Json) → RRes
  | [] =>
    recordE mode (newWithContext
      "No items in array valid under the given schema" ictx sctx)
  | (i, item) :: rest =>
    match recf item schema (.num (.pos i) :: ictx) sctx rctx .fastfail with
    | .ok _ => .ok []
    | .stop => containsScan recf schema ictx sctx rctx mode rest
    | r => r

/-- validators.rs contains. -/
def contains (ext : Ext) (cfg : Cfg) (recf : RecFn)
    (inst schema : Json) (parentm : Entries)
    (ictx sctx rctx : Ctx) (mode : Mode) : RRes :=
  match inst with
  | .arr instl => containsScan recf schema ictx sctx rctx mode instl.enum
  | _ => .ok []

/-- validators.rs exclusiveMinimum (draft 6 and later, numeric form). -/
def exclusiveMinimum (ext : Ext) (cfg : Cfg) (recf : RecFn)
    (inst schema : Json) (parentm : Entries)
    (ictx sctx rctx : Ctx) (mode : Mode) : RRes :=
  match inst, schema with
  | .num inum, .num snum =>
    if inum.asF64 ≤ snum.asF64 then
      recordE mode (newWithContext "instance <= exclusiveMinimum" ictx sctx)
    else .ok []
  | _, _ => .ok []

/-- validators.rs exclusiveMaximum (draft 6 and later, numeric form). -/
def exclusiveMaximum (ext : Ext) (cfg : Cfg) (recf : RecFn)
    (inst schema : Json) (parentm : Entries)
    (ictx sctx rctx : Ctx) (mode : Mode) : RRes :=
  match inst, schema with
  | .num inum, .num snum =>
    if snum.asF64 ≤ inum.asF64 then
      recordE mode (newWithContext "instance >= exclusiveMaximum" ictx sctx)
    else .ok []
  | _, _ => .ok []

/-- validators.rs minimum_draft4, consulting a sibling boolean
exclusiveMinimum. -/
def minimum_draft4 (ext : Ext) (cfg : Cfg) (recf : RecFn)
    (inst schema : Json) (parentm : Entries)
    (ictx sctx rctx : Ctx) (mode : Mode) : RRes :=
  match inst, schema with
  | .num inum, .num snum =>
    if ((lookupJ parentm "exclusiveMinimum").bind asBool).getD false then
      if inum.asF64 ≤ snum.asF64 then
        recordE mode (newWithContext "instance <= exclusiveMinimum" ictx sctx)
      else .ok []
    else if inum.asF64 < snum.asF64 then
      recordE mode (newWithContext "instance <= minimum" ictx sctx)
    else .ok []
  | _, _ => .ok []

/-- validators.rs minimum (draft 6 and later). -/
def minimum (ext : Ext) (cfg : Cfg) (recf : RecFn)
    (inst schema : Json) (parentm : Entries)
    (ictx sctx rctx : Ctx) (mode : Mode) : RRes :=
  match inst, schema with
  | .num inum, .num snum =>
    if inum.asF64 < snum.asF64 then
      recordE mode (newWithContext "instance < minimum" ictx sctx)
    else .ok []
  | _, _ => .ok []

/-- validators.rs maximum_draft4, consulting a sibling boolean
exclusiveMaximum. -/
def maximum_draft4 (ext : Ext) (cfg : Cfg) (recf : RecFn)
    (inst schema : Json) (parentm : Entries)
    (ictx sctx rctx : Ctx) (mode : Mode) : RRes :=
  match inst, schema with
  | .num inum, .num snum =>
    if ((lookupJ parentm "exclusiveMaximum").bind asBool).getD false then
      if snum.asF64 ≤ inum.asF64 then
        recordE mode (newWithContext "instance >= exclusiveMaximum" ictx sctx)
      else .ok []
    else if snum.asF64 < inum.asF64 then
      recordE mode (newWithContext "instance > maximum" ictx sctx)
    else .ok []
  | _, _ => .ok []

/-- validators.rs maximum (draft 6 and later). -/
def maximum (ext : Ext) (cfg : Cfg) (recf : RecFn)
    (inst schema : Json) (parentm : Entries)
    (ictx sctx rctx : Ctx) (mode : Mode) : RRes :=
  match inst, schema with
  | .num inum, .num snum =>
    if snum.asF64 < inum.asF64 then
      recordE mode (newWithContext "instance > maximum" ictx sctx)
    else .ok []
  | _, _ => .ok []

/-- validators.rs multipleOf.  The branch is chosen by the schema
number's representation; the instance conversions are unwrapped, so a
representation mismatch (or an integer remainder by zero) panics. -/
def multipleOf (ext : Ext) (cfg : Cfg) (recf : RecFn)
    (inst schema : Json) (parentm : Entries)
    (ictx sctx rctx : Ctx) (mode : Mode) : RRes :=
  match inst, schema with
  | .num inum, .num snum =>
    let failed : Option Bool :=
      if snum.isF64 then
        -- as_f64 is total on serde numbers, so these unwraps succeed.
        let a := inum.asF64
        let b := snum.asF64
        if b == 0 then
          -- IEEE written out: a/0.0 is NaN when a = 0 (trunc NaN != NaN,
          -- so the check fails) and +-inf otherwise (trunc inf == inf).
          some (a == 0)
        else
          let quotient := a / b
          some (!(rtrunc quotient == quotient))
      else if snum.isU64 then
        match inum.asU64, snum.asU64 with
        | some a, some b => if b == 0 then none else some (!(a % b == 0))
        | _, _ => none
      else
        match inum.asI64, snum.asI64 with
        | some a, some b => if b == 0 then none else some (!(a.tmod b == 0))
        | _, _ => none
    match failed with
    | none => .panicked
    | some f =>
      if f then recordE mode (newWithContext "not multipleOf" ictx sctx)
      else .ok []
  | _, _ => .ok []

/-- validators.rs minItems. -/
def minItems (ext : Ext) (cfg : Cfg) (recf : RecFn)
    (inst schema : Json) (parentm : Entries)
    (ictx sctx rctx : Ctx) (mode : Mode) : RRes :=
  match inst, schema with
  | .arr instl, .num snum =>
    match snum.asU64 with
    | some n =>
      if instl.length < n then
        recordE mode (newWithContext "len < minItems" ictx sctx)
      else .ok []
    | none => .panicked
  | _, _ => .ok []

/-- validators.rs maxItems. -/
def maxItems (ext : Ext) (cfg : Cfg) (recf : RecFn)
    (inst schema : Json) (parentm : Entries)
    (ictx sctx rctx : Ctx) (mode : Mode) : RRes :=
  match inst, schema with
  | .arr instl, .num snum =>
    match snum.asU64 with
    | some n =>
      if n < instl.length then
        recordE mode (newWithContext "len > maxItems" ictx sctx)
      else .ok []
    | none => .panicked
  | _, _ => .ok []

/-- validators.rs uniqueItems. -/
def uniqueItems (ext : Ext) (cfg : Cfg) (recf : RecFn)
    (inst schema : Json) (parentm : Entries)
    (ictx sctx rctx : Ctx) (mode : Mode) : RRes :=
  match inst, schema with
  | .arr instl, .bool sb =>
    if sb && !(has_unique_elements instl) then
      recordE mode (newWithContext "items are not unique" ictx sctx)
    else .ok []
  | _, _ => .ok []

/-- validators.rs pattern. -/
def pattern (ext : Ext) (cfg : Cfg) (recf : RecFn)
    (inst schema : Json) (parentm : Entries)
    (ictx sctx rctx : Ctx) (mode : Mode) : RRes :=
  match inst, schema with
  | .str istr, .str sstr =>
    match ext.regexNew sstr with
    | some re =>
      if !(re istr) then
        recordE mode (newWithContext "does not match pattern" ictx sctx)
      else .ok []
    | none =>
      recordE mode (newWithSchemaContext
        ("Invalid regular expression '" ++ sstr ++ "'") sctx)
  | _, _ => .ok []

/-! ## validators.rs, continued -/

/-- Per-draft format-checker tables of src/schemas.rs (draft 7). -/
def draft7_get_format_checker (key : String) : Option FmtId :=
  match key with
  | "date" => some .date
  | "date-time" => some .datetime
  | "email" => some .email
  | "hostname" => some .hostname
  | "idn-email" => some .email
  | "ipv4" => some .ipv4
  | "ipv6" => some .ipv6
  | "iri" => some .iri
  | "iri-reference" => some .iriReference
  | "json-pointer" => some .jsonPointer
  | "regex" => some .regexFmt
  | "time" => some .time
  | "uri" => some .uri
  | "uri-reference" => some .uriReference
  | "uri-template" => some .uriTemplate
  | _ => none

/-- Per-draft format-checker tables of src/schemas.rs (draft 6). -/
def draft6_get_format_checker (key : String) : Option FmtId :=
  match key with
  | "date" => some .date
  | "date-time" => some .datetime
  | "email" => some .email
  | "hostname" => some .hostname
  | "ipv4" => some .ipv4
  | "ipv6" => some .ipv6
  | "json-pointer" => some .jsonPointer
  | "regex" => some .regexFmt
  | "time" => some .time
  | "uri" => some .uri
  | "uri-reference" => some .uriReference
  | "uri-template" => some .uriTemplate
  | _ => none

/-- Per-draft format-checker tables of src/schemas.rs (draft 4). -/
def draft4_get_format_checker (key : String) : Option FmtId :=
  match key with
  | "date-time" => some .datetime
  | "email" => some .email
  | "hostname" => some .hostname
  | "ipv4" => some .ipv4
  | "ipv6" => some .ipv6
  | "regex" => some .regexFmt
  | "uri" => some .uri
  | _ => none

/-- Draft::get_format_checker. -/
def Draft.get_format_checker : Draft -> String -> Option FmtId
  | .draft4 => draft4_get_format_checker
  | .draft6 => draft6_get_format_checker
  | .draft7 => draft7_get_format_checker

/-- validators.rs format. -/
def format (ext : Ext) (cfg : Cfg) (recf : RecFn)
    (inst schema : Json) (parentm : Entries)
    (ictx sctx rctx : Ctx) (mode : Mode) : RRes :=
  match inst, schema with
  | .str istr, .str sstr =>
    match cfg.draft.get_format_checker sstr with
    | some checker =>
      if !(ext.runFormat checker istr) then
        recordE mode (newWithContext "invalid for format" ictx sctx)
      else .ok []
    | none => .ok []
  | _, _ => .ok []

/-- validators.rs minLength (count of Unicode scalar values). -/
def minLength (ext : Ext) (cfg : Cfg) (recf : RecFn)
    (inst schema : Json) (parentm : Entries)
    (ictx sctx rctx : Ctx) (mode : Mode) : RRes :=
  match inst, schema with
  | .str istr, .num snum =>
    match snum.asU64 with
    | some n =>
      if istr.length < n then
        recordE mode (newWithContext "len < minLength" ictx sctx)
      else .ok []
    | none => .panicked
  | _, _ => .ok []

/-- validators.rs maxLength (count of Unicode scalar values). -/
def maxLength (ext : Ext) (cfg : Cfg) (recf : RecFn)
    (inst schema : Json) (parentm : Entries)
    (ictx sctx rctx : Ctx) (mode : Mode) : RRes :=
  match inst, schema with
  | .str istr, .num snum =>
    match snum.asU64 with
    | some n =>
      if n < istr.length then
        recordE mode (newWithContext "len > maxLength" ictx sctx)
      else .ok []
    | none => .panicked
  | _, _ => .ok []

/-- validators.rs dependencies. -/
def dependencies (ext : Ext) (cfg : Cfg) (recf : RecFn)
    (inst schema : Json) (parentm : Entries)
    (ictx sctx rctx : Ctx) (mode : Mode) : RRes :=
  match inst, schema with
  | .obj instm, .obj schemam =>
    seqList (fun (pd : String × Json) =>
      if !(containsKeyJ instm pd.1) then .ok []
      else
        let dep := bool_to_object_schema pd.2
        match dep with
        | .obj _ => recf inst dep ictx (.str pd.1 :: sctx) rctx mode
        | _ =>
          seqList (fun dep0 =>
            match dep0 with
            | .str key =>
              if !(containsKeyJ instm key) then
                recordE mode (newWithContext "dependency" ictx sctx)
              else .ok []
            | _ => .ok []) (iter_or_once dep)) schemam
  | _, _ => .ok []

/-- validators.rs enum_, using serde equality. -/
def enum_ (ext : Ext) (cfg : Cfg) (recf : RecFn)
    (inst schema : Json) (parentm : Entries)
    (ictx sctx rctx : Ctx) (mode : Mode) : RRes :=
  match schema with
  | .arr enums =>
    if !(enums.any (fun val => beqJ val inst)) then
      recordE mode (newWithContext "is not one of enum" ictx sctx)
    else .ok []
  | _ => .ok []

/-- validators.rs single_type. -/
def single_type (inst schema : Json) : Bool :=
  match schema with
  | .str typename =>
    match typename with
    | "array" => (match inst with | .arr _ => true | _ => false)
    | "object" => (match inst with | .obj _ => true | _ => false)
    | "null" => (match inst with | .null => true | _ => false)
    | "number" => (match inst with | .num _ => true | _ => false)
    | "string" => (match inst with | .str _ => true | _ => false)
    | "integer" =>
      (match inst with
       | .num number =>
         number.isI64 || number.isU64 ||
           (number.isF64 && rtrunc number.asF64 == number.asF64)
       | _ => false)
    | "boolean" => (match inst with | .bool _ => true | _ => false)
    | _ => true
  | _ => true

/-- validators.rs type_. -/
def type_ (ext : Ext) (cfg : Cfg) (recf : RecFn)
    (inst schema : Json) (parentm : Entries)
    (ictx sctx rctx : Ctx) (mode : Mode) : RRes :=
  if !((iter_or_once schema).any (fun x => single_type inst x)) then
    recordE mode (newWithContext "is not of type" ictx sctx)
  else .ok []

/-- validators.rs properties. -/
def properties (ext : Ext) (cfg : Cfg) (recf : RecFn)
    (inst schema : Json) (parentm : Entries)
    (ictx sctx rctx : Ctx) (mode : Mode) : RRes :=
  match inst, schema with
  | .obj instm, .obj schemam =>
    seqList (fun (ps : String × Json) =>
      match lookupJ instm ps.1 with
      | some v =>
        recf v ps.2 (.str ps.1 :: ictx) (.str ps.1 :: sctx) rctx mode
      | none => .ok []) schemam
  | _, _ => .ok []

/-- validators.rs required: one error is recorded per missing name. -/
def required (ext : Ext) (cfg : Cfg) (recf : RecFn)
    (inst schema : Json) (parentm : Entries)
    (ictx sctx rctx : Ctx) (mode : Mode) : RRes :=
  match inst, schema with
  | .obj instm, .arr props =>
    seqList (fun property =>
      match property with
      | .str key =>
        if !(containsKeyJ instm key) then
          recordE mode (newWithContext
            ("required property " ++ render property ++ " is missing") ictx sctx)
        else .ok []
      | _ => .ok []) props
  | _, _ => .ok []

/-- validators.rs minProperties. -/
def minProperties (ext : Ext) (cfg : Cfg) (recf : RecFn)
    (inst schema : Json) (parentm : Entries)
    (ictx sctx rctx : Ctx) (mode : Mode) : RRes :=
  match inst, schema with
  | .obj instm, .num snum =>
    match snum.asU64 with
    | some n =>
      if instm.length < n then
        recordE mode (newWithContext "len < minProperties" ictx sctx)
      else .ok []
    | none => .panicked
  | _, _ => .ok []

/-- validators.rs maxProperties. -/
def maxProperties (ext : Ext) (cfg : Cfg) (recf : RecFn)
    (inst schema : Json) (parentm : Entries)
    (ictx sctx rctx : Ctx) (mode : Mode) : RRes :=
  match inst, schema with
  | .obj instm, .num snum =>
    match snum.asU64 with
    | some n =>
      if n < instm.length then
        recordE mode (newWithContext "len > maxProperties" ictx sctx)
      else .ok []
    | none => .panicked
  | _, _ => .ok []

/-- validators.rs allOf. -/
def allOf (ext : Ext) (cfg : Cfg) (recf : RecFn)
    (inst schema : Json) (parentm : Entries)
    (ictx sctx rctx : Ctx) (mode : Mode) : RRes :=
  match schema with
  | .arr schemal =>
    seqList (fun (iv : Nat × Json) =>
      let subschema0 :=
        if 6 ≤ cfg.draft.number then bool_to_object_schema iv.2 else iv.2
      recf inst subschema0 ictx (.num (.pos iv.1) :: sctx) rctx mode)
      schemal.enum
  | _ => .ok []

/-- The subschema scan of validators.rs anyOf: each subschema is run
against a local collect-all recorder; success on the first empty one. -/
def anyOfScan (cfg : Cfg) (recf : RecFn) (inst : Json)
    (ictx sctx rctx : Ctx) (mode : Mode) : List (Nat × Json) → RRes
  | [] => recordE mode (newWithContext "anyOf" ictx sctx)
  | (index, subschema) :: rest =>
    let subschema0 :=
      if 6 ≤ cfg.draft.number then bool_to_object_schema subschema else subschema
    match recf inst subschema0 ictx (.num (.pos index) :: sctx) rctx .collect with
    | .ok [] => .ok []
    | .ok (_ :: _) => anyOfScan cfg recf inst ictx sctx rctx mode rest
    | r => r

/-- validators.rs anyOf. -/
def anyOf (ext : Ext) (cfg : Cfg) (recf : RecFn)
    (inst schema : Json) (parentm : Entries)
    (ictx sctx rctx : Ctx) (mode : Mode) : RRes :=
  match schema with
  | .arr schemal => anyOfScan cfg recf inst ictx sctx rctx mode schemal.enum
  | _ => .ok []

/-- Result of the first scan of validators.rs oneOf. -/
inductive OneOfFirst where
  | found (rest : List Json)
  | noneMatched
  | panicked
  | fuelout
deriving DecidableEq

/-- First scan of validators.rs oneOf: find the first subschema whose
fast-fail descent succeeds, handing back the unscanned remainder. -/
def oneOf_first (cfg : Cfg) (recf : RecFn) (inst : Json)
    (ictx sctx rctx : Ctx) : List (Nat × Json) → OneOfFirst
  | [] => .noneMatched
  | (index, subschema) :: rest =>
    let subschema0 :=
      if 6 ≤ cfg.draft.number then bool_to_object_schema subschema else subschema
    match recf inst subschema0 ictx (.num (.pos index) :: sctx) rctx .fastfail with
    | .ok _ => .found (rest.map Prod.snd)
    | .stop => oneOf_first cfg recf inst ictx sctx rctx rest
    | .panicked => .panicked
    | .fuelout => .fuelout

/-- Result of the second scan of validators.rs oneOf. -/
inductive OneOfSecond where
  | foundMore
  | nomore
  | panicked
  | fuelout
deriving DecidableEq

/-- Second scan of validators.rs oneOf, over the remainder of the
iterator: enumeration restarts at zero and the boolean-to-object
coercion is applied unconditionally. -/
def oneOf_second (cfg : Cfg) (recf : RecFn) (inst : Json)
    (ictx sctx rctx : Ctx) : List (Nat × Json) → OneOfSecond
  | [] => .nomore
  | (index, subschema) :: rest =>
    let subschema0 := bool_to_object_schema subschema
    match recf inst subschema0 ictx (.num (.pos index) :: sctx) rctx .fastfail with
    | .ok _ => .foundMore
    | .stop => oneOf_second cfg recf inst ictx sctx rctx rest
    | .panicked => .panicked
    | .fuelout => .fuelout

/-- Outcome of the second scan of validators.rs oneOf, as a result. -/
def oneOf_tail2 (ictx sctx : Ctx) (mode : Mode) : OneOfSecond → RRes
  | .foundMore =>
    recordE mode (newWithContext "More than one matched in oneOf" ictx sctx)
  | .nomore => .ok []
  | .panicked => .panicked
  | .fuelout => .fuelout

/-- Outcome of validators.rs oneOf after the first scan: a zero-match
error, or the second scan over the remainder. -/
def oneOf_tail (cfg : Cfg) (recf : RecFn) (inst : Json)
    (ictx sctx rctx : Ctx) (mode : Mode) : OneOfFirst → RRes
  | .noneMatched => recordE mode (newWithContext "Nothing matched in oneOf" ictx sctx)
  | .found rest =>
    oneOf_tail2 ictx sctx mode (oneOf_second cfg recf inst ictx sctx rctx rest.enum)
  | .panicked => .panicked
  | .fuelout => .fuelout

/-- validators.rs oneOf. -/
def oneOf (ext : Ext) (cfg : Cfg) (recf : RecFn)
    (inst schema : Json) (parentm : Entries)
    (ictx sctx rctx : Ctx) (mode : Mode) : RRes :=
  match schema with
  | .arr schemal =>
    oneOf_tail cfg recf inst ictx sctx rctx mode
      (oneOf_first cfg recf inst ictx sctx rctx schemal.enum)
  | _ => .ok []

/-- validators.rs not: record an error exactly when the fast-fail
descent into the subschema succeeds. -/
def not_ (ext : Ext) (cfg : Cfg) (recf : RecFn)
    (inst schema : Json) (parentm : Entries)
    (ictx sctx rctx : Ctx) (mode : Mode) : RRes :=
  match recf inst schema ictx sctx rctx .fastfail with
  | .ok _ => recordE mode (newWithContext "not" ictx sctx)
  | .stop => .ok []
  | r => r

/-- validators.rs ref_: resolve through the external resolver, then
descend into the target with the scope chain extended by the new base;
the instance context is untouched and the parent schema is unused. -/
def ref_ (ext : Ext) (cfg : Cfg) (recf : RecFn)
    (inst schema : Json) (parentm : Entries)
    (ictx sctx rctx : Ctx) (mode : Mode) : RRes :=
  match schema with
  | .str sref =>
    match ext.resolveFragment sref rctx cfg.schema with
    | .ok (scope, resolved) =>
      recf inst resolved ictx sctx ((.obj [("$id", .str scope)]) :: rctx) mode
    | .error err => recordE mode err
  | _ => .ok []

/-- validators.rs if_: speculative fast-fail run of the if subschema,
then descent into the sibling then or else with the top schema-context
frame replaced. -/
def if_ (ext : Ext) (cfg : Cfg) (recf : RecFn)
    (inst schema : Json) (parentm : Entries)
    (ictx sctx rctx : Ctx) (mode : Mode) : RRes :=
  match recf inst schema ictx sctx rctx .fastfail with
  | .ok _ =>
    (match lookupJ parentm "then" with
     | some thenv =>
       (match thenv with
        | .obj _ =>
          (match sctx with
           | [] => .panicked
           | _ :: t => recf inst thenv ictx (.str "then" :: t) rctx mode)
        | _ => .ok [])
     | none => .ok [])
  | .stop =>
    (match lookupJ parentm "else" with
     | some elsev =>
       (match elsev with
        | .obj _ =>
          (match sctx with
           | [] => .panicked
           | _ :: t => recf inst elsev ictx (.str "else" :: t) rctx mode)
        | _ => .ok [])
     | none => .ok [])
  | r => r

/-! ## schemas.rs: keyword dispatch tables, and descend -/

/-- Identities of the validator functions the draft tables point at. -/
inductive VId where
  | ref | additionalItemsV | additionalPropertiesV | allOfV | anyOfV
  | constV | containsV | dependenciesV | enumV | exclusiveMaximumV
  | exclusiveMinimumV | formatV | ifV | itemsV | maxItemsV | maxLengthV
  | maxPropertiesV | maximumV | maximumDraft4 | minItemsV | minLengthV
  | minPropertiesV | minimumV | minimumDraft4 | multipleOfV | notV
  | oneOfV | patternV | patternPropertiesV | propertiesV | propertyNamesV
  | requiredV | typeV | uniqueItemsV
deriving DecidableEq

/-- schemas.rs draft7::get_validator. -/
def draft7_get_validator (key : String) : Option VId :=
  match key with
  | "$ref" => some .ref
  | "additionalItems" => some .additionalItemsV
  | "additionalProperties" => some .additionalPropertiesV
  | "allOf" => some .allOfV
  | "anyOf" => some .anyOfV
  | "const" => some .constV
  | "contains" => some .containsV
  | "dependencies" => some .dependenciesV
  | "enum" => some .enumV
  | "exclusiveMaximum" => some .exclusiveMaximumV
  | "exclusiveMinimum" => some .exclusiveMinimumV
  | "format" => some .formatV
  | "if" => some .ifV
  | "items" => some .itemsV
  | "maxItems" => some .maxItemsV
  | "maxLength" => some .maxLengthV
  | "maxProperties" => some .maxPropertiesV
  | "maximum" => some .maximumV
  | "minItems" => some .minItemsV
  | "minLength" => some .minLengthV
  | "minProperties" => some .minPropertiesV
  | "minimum" => some .minimumV
  | "multipleOf" => some .multipleOfV
  | "not" => some .notV
  | "oneOf" => some .oneOfV
  | "pattern" => some .patternV
  | "patternProperties" => some .patternPropertiesV
  | "properties" => some .propertiesV
  | "propertyNames" => some .propertyNamesV
  | "required" => some .requiredV
  | "type" => some .typeV
  | "uniqueItems" => some .uniqueItemsV
  | _ => none

/-- schemas.rs draft6::get_validator (draft 7 minus the if keyword). -/
def draft6_get_validator (key : String) : Option VId :=
  match key with
  | "$ref" => some .ref
  | "additionalItems" => some .additionalItemsV
  | "additionalProperties" => some .additionalPropertiesV
  | "allOf" => some .allOfV
  | "anyOf" => some .anyOfV
  | "const" => some .constV
  | "contains" => some .containsV
  | "dependencies" => some .dependenciesV
  | "enum" => some .enumV
  | "exclusiveMaximum" => some .exclusiveMaximumV
  | "exclusiveMinimum" => some .exclusiveMinimumV
  | "format" => some .formatV
  | "items" => some .itemsV
  | "maxItems" => some .maxItemsV
  | "maxLength" => some .maxLengthV
  | "maxProperties" => some .maxPropertiesV
  | "maximum" => some .maximumV
  | "minItems" => some .minItemsV
  | "minLength" => some .minLengthV
  | "minProperties" => some .minPropertiesV
  | "minimum" => some .minimumV
  | "multipleOf" => some .multipleOfV
  | "not" => some .notV
  | "oneOf" => some .oneOfV
  | "pattern" => some .patternV
  | "patternProperties" => some .patternPropertiesV
  | "properties" => some .propertiesV
  | "propertyNames" => some .propertyNamesV
  | "required" => some .requiredV
  | "type" => some .typeV
  | "uniqueItems" => some .uniqueItemsV
  | _ => none

/-- schemas.rs draft4::get_validator: no const, contains, numeric
exclusive bounds, propertyNames or if; minimum and maximum dispatch to
the draft-4 variants. -/
def draft4_get_validator (key : String) : Option VId :=
  match key with
  | "$ref" => some .ref
  | "additionalItems" => some .additionalItemsV
  | "additionalProperties" => some .additionalPropertiesV
  | "allOf" => some .allOfV
  | "anyOf" => some .anyOfV
  | "dependencies" => some .dependenciesV
  | "enum" => some .enumV
  | "format" => some .formatV
  | "items" => some .itemsV
  | "maxItems" => some .maxItemsV
  | "maxLength" => some .maxLengthV
  | "maxProperties" => some .maxPropertiesV
  | "maximum" => some .maximumDraft4
  | "minItems" => some .minItemsV
  | "minLength" => some .minLengthV
  | "minProperties" => some .minPropertiesV
  | "minimum" => some .minimumDraft4
  | "multipleOf" => some .multipleOfV
  | "not" => some .notV
  | "oneOf" => some .oneOfV
  | "pattern" => some .patternV
  | "patternProperties" => some .patternPropertiesV
  | "properties" => some .propertiesV
  | "required" => some .requiredV
  | "type" => some .typeV
  | "uniqueItems" => some .uniqueItemsV
  | _ => none

/-- Draft::get_validator. -/
def Draft.get_validator : Draft → String → Option VId
  | .draft4 => draft4_get_validator
  | .draft6 => draft6_get_validator
  | .draft7 => draft7_get_validator

/-- Invoke the validator a VId identifies (the function-pointer call of
the dispatch tables). -/
def runValidator (v : VId) (ext : Ext) (cfg : Cfg) (recf : RecFn)
    (inst schema : Json) (parentm : Entries)
    (ictx sctx rctx : Ctx) (mode : Mode) : RRes :=
  match v with
  | .ref => ref_ ext cfg recf inst schema parentm ictx sctx rctx mode
  | .additionalItemsV => additionalItems ext cfg recf inst schema parentm ictx sctx rctx mode
  | .additionalPropertiesV => additionalProperties ext cfg recf inst schema parentm ictx sctx rctx mode
  | .allOfV => allOf ext cfg recf inst schema parentm ictx sctx rctx mode
  | .anyOfV => anyOf ext cfg recf inst schema parentm ictx sctx rctx mode
  | .constV => const_ ext cfg recf inst schema parentm ictx sctx rctx mode
  | .containsV => contains ext cfg recf inst schema parentm ictx sctx rctx mode
  | .dependenciesV => dependencies ext cfg recf inst schema parentm ictx sctx rctx mode
  | .enumV => enum_ ext cfg recf inst schema parentm ictx sctx rctx mode
  | .exclusiveMaximumV => exclusiveMaximum ext cfg recf inst schema parentm ictx sctx rctx mode
  | .exclusiveMinimumV => exclusiveMinimum ext cfg recf inst schema parentm ictx sctx rctx mode
  | .formatV => format ext cfg recf inst schema parentm ictx sctx rctx mode
  | .ifV => if_ ext cfg recf inst schema parentm ictx sctx rctx mode
  | .itemsV => items ext cfg recf inst schema parentm ictx sctx rctx mode
  | .maxItemsV => maxItems ext cfg recf inst schema parentm ictx sctx rctx mode
  | .maxLengthV => maxLength ext cfg recf inst schema parentm ictx sctx rctx mode
  | .maxPropertiesV => maxProperties ext cfg recf inst schema parentm ictx sctx rctx mode
  | .maximumV => maximum ext cfg recf inst schema parentm ictx sctx rctx mode
  | .maximumDraft4 => maximum_draft4 ext cfg recf inst schema parentm ictx sctx rctx mode
  | .minItemsV => minItems ext cfg recf inst schema parentm ictx sctx rctx mode
  | .minLengthV => minLength ext cfg recf inst schema parentm ictx sctx rctx mode
  | .minPropertiesV => minProperties ext cfg recf inst schema parentm ictx sctx rctx mode
  | .minimumV => minimum ext cfg recf inst schema parentm ictx sctx rctx mode
  | .minimumDraft4 => minimum_draft4 ext cfg recf inst schema parentm ictx sctx rctx mode
  | .multipleOfV => multipleOf ext cfg recf inst schema parentm ictx sctx rctx mode
  | .notV => not_ ext cfg recf inst schema parentm ictx sctx rctx mode
  | .oneOfV => oneOf ext cfg recf inst schema parentm ictx sctx rctx mode
  | .patternV => pattern ext cfg recf inst schema parentm ictx sctx rctx mode
  | .patternPropertiesV => patternProperties ext cfg recf inst schema parentm ictx sctx rctx mode
  | .propertiesV => properties ext cfg recf inst schema parentm ictx sctx rctx mode
  | .propertyNamesV => propertyNames ext cfg recf inst schema parentm ictx sctx rctx mode
  | .requiredV => required ext cfg recf inst schema parentm ictx sctx rctx mode
  | .typeV => type_ ext cfg recf inst schema parentm ictx sctx rctx mode
  | .uniqueItemsV => uniqueItems ext cfg recf inst schema parentm ictx sctx rctx mode

/-- One level of validators.rs descend: dispatch on the schema shape.
A boolean schema succeeds or fails outright; an object containing $ref
runs only the $ref validator, with the schema context advanced to
"$ref"; any other object runs the registered validator of each key in
iteration order; anything else is an invalid schema. -/
def descendStep (ext : Ext) (cfg : Cfg) (recf : RecFn) : RecFn :=
  fun inst schema ictx sctx rctx mode =>
    match schema with
    | .bool b =>
      if !b then recordE mode (newWithSchemaContext "false schema always fails" sctx)
      else .ok []
    | .obj schemam =>
      if containsKeyJ schemam "$ref" then
        match cfg.draft.get_validator "$ref" with
        | some v =>
          (match lookupJ schemam "$ref" with
           | some refv =>
             runValidator v ext cfg recf inst refv schemam ictx
               (.str "$ref" :: sctx) rctx mode
           | none => .panicked)
        | none => .ok []
      else
        seqList (fun (kv : String × Json) =>
          match cfg.draft.get_validator kv.1 with
          | some v =>
            runValidator v ext cfg recf inst kv.2 schemam ictx
              (.str kv.1 :: sctx) rctx mode
          | none => .ok []) schemam
    | _ =>
      recordE mode (newWithSchemaContext
        ("Invalid schema. Must be Bool or Object, got '" ++ render schema ++ "'") sctx)

/-- The fuelled descent: one unit of fuel per nesting level.  descend
(fuel+1) dispatches via descendStep, handing the validators descend
fuel as their recursion callback. -/
def descend (ext : Ext) (cfg : Cfg) : Nat → RecFn
  | 0 => fun _ _ _ _ _ _ => .fuelout
  | fuel + 1 => descendStep ext cfg (descend ext cfg fuel)

/-! ## resolver.rs: identifier selection -/

/-- resolver.rs id_of: the base-URI identifier of a subschema.  Note
the draft-4 arm reads the $id key first and falls back to id. -/
def id_of (draft : Draft) (schema : Json) : Option String :=
  match schema with
  | .obj m =>
    (match draft with
     | .draft4 => (lookupJ m "$id").orElse (fun _ => lookupJ m "id")
     | _ => lookupJ m "$id").bind asString
  | _ => none

/-- The sentinel base URI of resolver.rs. -/
def DOCUMENT_PROTOCOL : String := "document:///"

/-- The base-URL selection of Resolver::from_schema: the root
identifier if present, otherwise the sentinel. -/
def resolver_base_url (draft : Draft) (schema : Json) : String :=
  match id_of draft schema with
  | some url => url
  | none => DOCUMENT_PROTOCOL

/-! ## Result shapes

The control flow of every validator inspects only the constructor of a
child result and, for collect-mode results, whether the error list is
empty; never the contents of an error.  The shape of a result captures
exactly that much, and the lemmas below show a run's shape does not
depend on the instance and schema contexts (which are only packed into
the errors). -/

/-- The shape of a result: constructor plus error count. -/
inductive RShape where
  | oks (n : Nat)
  | stop
  | panicked
  | fuelout
deriving DecidableEq

/-- Shape of a result. -/
def RRes.shape : RRes → RShape
  | .ok errs => .oks errs.length
  | .stop => .stop
  | .panicked => .panicked
  | .fuelout => .fuelout

theorem shape_cases {a b : RRes} (h : a.shape = b.shape) :
    (∃ e1 e2, a = .ok e1 ∧ b = .ok e2 ∧ e1.length = e2.length) ∨
    (a = .stop ∧ b = .stop) ∨ (a = .panicked ∧ b = .panicked) ∨
    (a = .fuelout ∧ b = .fuelout) := by
  cases a <;> cases b <;> simp_all [RRes.shape]

theorem recordE_shape (m : Mode) (e1 e2 : VErr) :
    (recordE m e1).shape = (recordE m e2).shape := by
  cases m <;> rfl

theorem seqList_shape {α : Type} {step1 step2 : α → RRes}
    (h : ∀ x, (step1 x).shape = (step2 x).shape) :
    ∀ l : List α, (seqList step1 l).shape = (seqList step2 l).shape := by
  intro l
  induction l with
  | nil => rfl
  | cons x xs ih =>
    simp only [seqList]
    rcases shape_cases (h x) with ⟨e1, e2, hx1, hx2, hlen⟩ | ⟨hx1, hx2⟩ |
      ⟨hx1, hx2⟩ | ⟨hx1, hx2⟩ <;> rw [hx1, hx2]
    · rcases shape_cases ih with ⟨f1, f2, hy1, hy2, hlen2⟩ | ⟨hy1, hy2⟩ |
        ⟨hy1, hy2⟩ | ⟨hy1, hy2⟩ <;> rw [hy1, hy2] <;>
        simp [RRes.shape, hlen, hlen2]
    all_goals simp [RRes.shape]

/-- Two recursion callbacks coupled so that runs differing only in the
instance and schema contexts have equal shapes. -/
def ShapeCoupled (recf1 recf2 : RecFn) : Prop :=
  ∀ inst schema ictx1 sctx1 ictx2 sctx2 rctx mode,
    (recf1 inst schema ictx1 sctx1 rctx mode).shape
      = (recf2 inst schema ictx2 sctx2 rctx mode).shape

theorem containsScan_shape {recf1 recf2 : RecFn}
    (hrec : ShapeCoupled recf1 recf2) (schema : Json)
    (ictx1 sctx1 ictx2 sctx2 rctx : Ctx) (mode : Mode) :
    ∀ l : List (Nat × Json),
      (containsScan recf1 schema ictx1 sctx1 rctx mode l).shape
        = (containsScan recf2 schema ictx2 sctx2 rctx mode l).shape := by
  intro l
  induction l with
  | nil => exact recordE_shape ..
  | cons x rest ih =>
    obtain ⟨i, item⟩ := x
    simp only [containsScan]
    rcases shape_cases
        (hrec item schema (.num (.pos i) :: ictx1) sctx1
          (.num (.pos i) :: ictx2) sctx2 rctx .fastfail) with
      ⟨e1, e2, hx1, hx2, hlen⟩ | ⟨hx1, hx2⟩ | ⟨hx1, hx2⟩ | ⟨hx1, hx2⟩ <;>
      rw [hx1, hx2] <;> first | exact ih | simp [RRes.shape]

theorem anyOfScan_shape (cfg : Cfg) {recf1 recf2 : RecFn}
    (hrec : ShapeCoupled recf1 recf2) (inst : Json)
    (ictx1 sctx1 ictx2 sctx2 rctx : Ctx) (mode : Mode) :
    ∀ l : List (Nat × Json),
      (anyOfScan cfg recf1 inst ictx1 sctx1 rctx mode l).shape
        = (anyOfScan cfg recf2 inst ictx2 sctx2 rctx mode l).shape := by
  intro l
  induction l with
  | nil => exact recordE_shape ..
  | cons x rest ih =>
    obtain ⟨index, subschema⟩ := x
    simp only [anyOfScan]
    rcases shape_cases
        (hrec inst (if 6 ≤ cfg.draft.number then bool_to_object_schema subschema else subschema)
          ictx1 (.num (.pos index) :: sctx1)
          ictx2 (.num (.pos index) :: sctx2) rctx .collect) with
      ⟨e1, e2, hx1, hx2, hlen⟩ | ⟨hx1, hx2⟩ | ⟨hx1, hx2⟩ | ⟨hx1, hx2⟩ <;>
      rw [hx1, hx2]
    · cases e1 with
      | nil =>
        cases e2 with
        | nil => simp [RRes.shape]
        | cons b bs => simp at hlen
      | cons a as =>
        cases e2 with
        | nil => simp at hlen
        | cons b bs => simpa [RRes.shape] using ih
    all_goals simp [RRes.shape]

theorem oneOf_first_ctx (cfg : Cfg) {recf1 recf2 : RecFn}
    (hrec : ShapeCoupled recf1 recf2) (inst : Json)
    (ictx1 sctx1 ictx2 sctx2 rctx : Ctx) :
    ∀ l : List (Nat × Json),
      oneOf_first cfg recf1 inst ictx1 sctx1 rctx l
        = oneOf_first cfg recf2 inst ictx2 sctx2 rctx l := by
  intro l
  induction l with
  | nil => rfl
  | cons x rest ih =>
    obtain ⟨index, subschema⟩ := x
    simp only [oneOf_first]
    rcases shape_cases
        (hrec inst (if 6 ≤ cfg.draft.number then bool_to_object_schema subschema else subschema)
          ictx1 (.num (.pos index) :: sctx1)
          ictx2 (.num (.pos index) :: sctx2) rctx .fastfail) with
      ⟨e1, e2, hx1, hx2, hlen⟩ | ⟨hx1, hx2⟩ | ⟨hx1, hx2⟩ | ⟨hx1, hx2⟩ <;>
      rw [hx1, hx2] <;> simp [ih]

theorem oneOf_second_ctx (cfg : Cfg) {recf1 recf2 : RecFn}
    (hrec : ShapeCoupled recf1 recf2) (inst : Json)
    (ictx1 sctx1 ictx2 sctx2 rctx : Ctx) :
    ∀ l : List (Nat × Json),
      oneOf_second cfg recf1 inst ictx1 sctx1 rctx l
        = oneOf_second cfg recf2 inst ictx2 sctx2 rctx l := by
  intro l
  induction l with
  | nil => rfl
  | cons x rest ih =>
    obtain ⟨index, subschema⟩ := x
    simp only [oneOf_second]
    rcases shape_cases
        (hrec inst (bool_to_object_schema subschema)
          ictx1 (.num (.pos index) :: sctx1)
          ictx2 (.num (.pos index) :: sctx2) rctx .fastfail) with
      ⟨e1, e2, hx1, hx2, hlen⟩ | ⟨hx1, hx2⟩ | ⟨hx1, hx2⟩ | ⟨hx1, hx2⟩ <;>
      rw [hx1, hx2] <;> simp [ih]

theorem ite_recordE_shape {c : Prop} [Decidable c] (m : Mode) (e1 e2 : VErr) :
    (if c then recordE m e1 else (.ok [] : RRes)).shape
      = (if c then recordE m e2 else (.ok [] : RRes)).shape := by
  by_cases h : c
  · simp only [if_pos h]; exact recordE_shape ..
  · simp only [if_neg h]

theorem matchU64_shape (F : Option Nat) {c : Nat → Prop} [∀ n, Decidable (c n)]
    (m : Mode) (e1 e2 : VErr) :
    (match F with
     | some n => if c n then recordE m e1 else (.ok [] : RRes)
     | none => .panicked).shape
      = (match F with
         | some n => if c n then recordE m e2 else (.ok [] : RRes)
         | none => .panicked).shape := by
  cases F with
  | none => rfl
  | some n => exact ite_recordE_shape ..

theorem matchFailed_shape (F : Option Bool) (m : Mode) (e1 e2 : VErr) :
    (match F with
     | none => (.panicked : RRes)
     | some f => if f then recordE m e1 else .ok []).shape
      = (match F with
         | none => (.panicked : RRes)
         | some f => if f then recordE m e2 else .ok []).shape := by
  cases F with
  | none => rfl
  | some f => cases f
              · rfl
              · exact recordE_shape ..

/-- Context-irrelevance of a validator invocation: the shape of the
result does not depend on the instance and schema contexts (which feed
only into error records), provided the two schema contexts agree on
emptiness (if_ unwraps the parent frame) and the callbacks are
shape-coupled. -/
theorem runValidator_shape (v : VId) (ext : Ext) (cfg : Cfg)
    {recf1 recf2 : RecFn} (hrec : ShapeCoupled recf1 recf2)
    (inst schema : Json) (parentm : Entries)
    (ictx1 sctx1 ictx2 sctx2 rctx : Ctx) (mode : Mode)
    (hs : sctx1 = [] ↔ sctx2 = []) :
    (runValidator v ext cfg recf1 inst schema parentm ictx1 sctx1 rctx mode).shape
      = (runValidator v ext cfg recf2 inst schema parentm ictx2 sctx2 rctx mode).shape := by
  cases v
  case ref =>
    cases schema <;> simp only [runValidator, ref_] <;> try rfl
    rename_i sref
    cases hres : ext.resolveFragment sref rctx cfg.schema with
    | ok pr =>
      obtain ⟨scope, resolved⟩ := pr
      exact hrec ..
    | error err => exact recordE_shape ..
  case additionalItemsV =>
    simp only [runValidator, additionalItems]
    by_cases h1 : (!(containsKeyJ parentm "items")) = true
    · simp only [if_pos h1]
    · simp only [if_neg h1]
      by_cases h2 : (isObjJ (lookupJ parentm "items")) = true
      · simp only [if_pos h2]
      · simp only [if_neg h2]
        cases inst <;> try rfl
        cases schema <;> try rfl
        · exact ite_recordE_shape ..
        · exact seqList_shape (fun iv => hrec ..) _
  case additionalPropertiesV =>
    cases inst <;> cases schema <;>
      simp only [runValidator, additionalProperties] <;> try rfl
    · exact ite_recordE_shape ..
    · refine seqList_shape (fun extra => ?_) _
      cases lookupJ _ extra with
      | some v => exact hrec ..
      | none => rfl
  case allOfV =>
    simp only [runValidator, allOf]
    cases schema <;> try rfl
    exact seqList_shape (fun iv => hrec ..) _
  case anyOfV =>
    simp only [runValidator, anyOf]
    cases schema <;> try rfl
    exact anyOfScan_shape cfg hrec ..
  case constV =>
    simp only [runValidator, const_]
    exact ite_recordE_shape ..
  case containsV =>
    simp only [runValidator, contains]
    cases inst <;> try rfl
    exact containsScan_shape hrec ..
  case dependenciesV =>
    simp only [runValidator, dependencies]
    cases inst <;> try rfl
    cases schema <;> try rfl
    rename_i instm schemam
    refine seqList_shape (fun pd => ?_) _
    by_cases hc : (!containsKeyJ instm pd.1) = true
    · simp only [if_pos hc]
    · simp only [if_neg hc]
      cases bool_to_object_schema pd.2 <;>
        first
          | exact hrec ..
          | exact seqList_shape
              (fun dep0 => by
                cases dep0 <;> try rfl
                exact ite_recordE_shape ..) _
  case enumV =>
    simp only [runValidator, enum_]
    cases schema <;> try rfl
    exact ite_recordE_shape ..
  case exclusiveMaximumV =>
    simp only [runValidator, exclusiveMaximum]
    cases inst <;> try rfl
    cases schema <;> try rfl
    exact ite_recordE_shape ..
  case exclusiveMinimumV =>
    simp only [runValidator, exclusiveMinimum]
    cases inst <;> try rfl
    cases schema <;> try rfl
    exact ite_recordE_shape ..
  case formatV =>
    cases inst <;> cases schema <;> simp only [runValidator, format] <;> try rfl
    cases cfg.draft.get_format_checker _ <;> try rfl
    exact ite_recordE_shape ..
  case ifV =>
    simp only [runValidator, if_]
    rcases shape_cases (hrec inst schema ictx1 sctx1 ictx2 sctx2 rctx .fastfail) with
      ⟨e1, e2, hx1, hx2, hlen⟩ | ⟨hx1, hx2⟩ | ⟨hx1, hx2⟩ | ⟨hx1, hx2⟩ <;>
      rw [hx1, hx2] <;> try rfl
    · cases lookupJ parentm "then" with
      | none => rfl
      | some thenv =>
        cases thenv <;> try rfl
        cases sctx1 with
        | nil => rw [hs.mp rfl]
        | cons a t1 =>
          cases sctx2 with
          | nil => exact absurd (hs.mpr rfl) (by simp)
          | cons b t2 => exact hrec ..
    · cases lookupJ parentm "else" with
      | none => rfl
      | some elsev =>
        cases elsev <;> try rfl
        cases sctx1 with
        | nil => rw [hs.mp rfl]
        | cons a t1 =>
          cases sctx2 with
          | nil => exact absurd (hs.mpr rfl) (by simp)
          | cons b t2 => exact hrec ..
  case itemsV =>
    simp only [runValidator, items]
    cases inst <;> try rfl
    cases bool_to_object_schema schema <;> try rfl
    · exact seqList_shape (fun iv => hrec ..) _
    · exact seqList_shape (fun p => hrec ..) _
  case maxItemsV =>
    simp only [runValidator, maxItems]
    cases inst <;> try rfl
    cases schema <;> try rfl
    exact matchU64_shape ..
  case maxLengthV =>
    simp only [runValidator, maxLength]
    cases inst <;> try rfl
    cases schema <;> try rfl
    exact matchU64_shape ..
  case maxPropertiesV =>
    simp only [runValidator, maxProperties]
    cases inst <;> try rfl
    cases schema <;> try rfl
    exact matchU64_shape ..
  case maximumV =>
    simp only [runValidator, maximum]
    cases inst <;> try rfl
    cases schema <;> try rfl
    exact ite_recordE_shape ..
  case maximumDraft4 =>
    simp only [runValidator, maximum_draft4]
    cases inst <;> try rfl
    cases schema <;> try rfl
    by_cases hb : (((lookupJ parentm "exclusiveMaximum").bind asBool).getD false) = true
    · simp only [if_pos hb]; exact ite_recordE_shape ..
    · simp only [if_neg hb]; exact ite_recordE_shape ..
  case minItemsV =>
    simp only [runValidator, minItems]
    cases inst <;> try rfl
    cases schema <;> try rfl
    exact matchU64_shape ..
  case minLengthV =>
    simp only [runValidator, minLength]
    cases inst <;> try rfl
    cases schema <;> try rfl
    exact matchU64_shape ..
  case minPropertiesV =>
    simp only [runValidator, minProperties]
    cases inst <;> try rfl
    cases schema <;> try rfl
    exact matchU64_shape ..
  case minimumV =>
    simp only [runValidator, minimum]
    cases inst <;> try rfl
    cases schema <;> try rfl
    exact ite_recordE_shape ..
  case minimumDraft4 =>
    simp only [runValidator, minimum_draft4]
    cases inst <;> try rfl
    cases schema <;> try rfl
    by_cases hb : (((lookupJ parentm "exclusiveMinimum").bind asBool).getD false) = true
    · simp only [if_pos hb]; exact ite_recordE_shape ..
    · simp only [if_neg hb]; exact ite_recordE_shape ..
  case multipleOfV =>
    simp only [runValidator, multipleOf]
    cases inst <;> try rfl
    cases schema <;> try rfl
    exact matchFailed_shape ..
  case notV =>
    simp only [runValidator, not_]
    rcases shape_cases (hrec inst schema ictx1 sctx1 ictx2 sctx2 rctx .fastfail) with
      ⟨e1, e2, hx1, hx2, hlen⟩ | ⟨hx1, hx2⟩ | ⟨hx1, hx2⟩ | ⟨hx1, hx2⟩ <;>
      rw [hx1, hx2] <;> try rfl
    exact recordE_shape ..
  case oneOfV =>
    cases schema <;> simp only [runValidator, oneOf] <;> try rfl
    rw [oneOf_first_ctx cfg hrec inst ictx1 sctx1 ictx2 sctx2 rctx]
    cases oneOf_first cfg recf2 inst ictx2 sctx2 rctx _ with
    | found rest =>
      simp only [oneOf_tail]
      rw [oneOf_second_ctx cfg hrec inst ictx1 sctx1 ictx2 sctx2 rctx]
      cases oneOf_second cfg recf2 inst ictx2 sctx2 rctx rest.enum <;>
        simp only [oneOf_tail2] <;> first | exact recordE_shape .. | rfl
    | noneMatched => exact recordE_shape ..
    | panicked => rfl
    | fuelout => rfl
  case patternV =>
    cases inst <;> cases schema <;> simp only [runValidator, pattern] <;> try rfl
    cases ext.regexNew _ with
    | some re => exact ite_recordE_shape ..
    | none => exact recordE_shape ..
  case patternPropertiesV =>
    simp only [runValidator, patternProperties]
    cases inst <;> try rfl
    cases schema <;> try rfl
    refine seqList_shape (fun ps => ?_) _
    cases ext.regexNew ps.1 with
    | some re =>
      refine seqList_shape (fun kv => ?_) _
      by_cases hre : (re kv.1) = true
      · simp only [if_pos hre]; exact hrec ..
      · simp only [if_neg hre]
    | none => exact recordE_shape ..
  case propertiesV =>
    simp only [runValidator, properties]
    cases inst <;> try rfl
    cases schema <;> try rfl
    refine seqList_shape (fun ps => ?_) _
    cases lookupJ _ ps.1 with
    | some v => exact hrec ..
    | none => rfl
  case propertyNamesV =>
    simp only [runValidator, propertyNames]
    cases inst <;> try rfl
    exact seqList_shape (fun kv => hrec ..) _
  case requiredV =>
    simp only [runValidator, required]
    cases inst <;> try rfl
    cases schema <;> try rfl
    refine seqList_shape (fun property => ?_) _
    cases property <;> try rfl
    exact ite_recordE_shape ..
  case typeV =>
    simp only [runValidator, type_]
    exact ite_recordE_shape ..
  case uniqueItemsV =>
    simp only [runValidator, uniqueItems]
    cases inst <;> try rfl
    cases schema <;> try rfl
    exact ite_recordE_shape ..

/-- Context-irrelevance of one dispatch level. -/
theorem descendStep_shape (ext : Ext) (cfg : Cfg) {recf1 recf2 : RecFn}
    (hrec : ShapeCoupled recf1 recf2) :
    ShapeCoupled (descendStep ext cfg recf1) (descendStep ext cfg recf2) := by
  intro inst schema ictx1 sctx1 ictx2 sctx2 rctx mode
  cases schema with
  | bool b =>
    simp only [descendStep]
    cases b
    · exact recordE_shape ..
    · rfl
  | obj schemam =>
    simp only [descendStep]
    by_cases hcont : containsKeyJ schemam "$ref" = true
    · simp only [if_pos hcont]
      cases cfg.draft.get_validator "$ref" with
      | none => rfl
      | some v =>
        cases lookupJ schemam "$ref" with
        | none => rfl
        | some refv => exact runValidator_shape v ext cfg hrec _ _ _ _ _ _ _ _ mode (by simp)
    · simp only [if_neg hcont]
      refine seqList_shape (fun kv => ?_) _
      cases cfg.draft.get_validator kv.1 with
      | none => rfl
      | some v => exact runValidator_shape v ext cfg hrec _ _ _ _ _ _ _ _ mode (by simp)
  | null => exact recordE_shape ..
  | num n => exact recordE_shape ..
  | str st => exact recordE_shape ..
  | arr l => exact recordE_shape ..

/-- Context-irrelevance of the fuelled descent: the shape of a run does
not depend on the instance and schema contexts. -/
theorem descend_shape (ext : Ext) (cfg : Cfg) :
    ∀ fuel, ShapeCoupled (descend ext cfg fuel) (descend ext cfg fuel) := by
  intro fuel
  induction fuel with
  | zero => intro _ _ _ _ _ _ _ _; rfl
  | succ f ih => exact descendStep_shape ext cfg ih

/-! ## Mode coherence

A fast-fail run stops exactly when the corresponding collect-all run
records at least one error: the two modes follow the same control path
up to the first recorded error, where the fast-fail recorder interrupts.
The lemmas below prove this for every validator and for descend, given
it for the recursion callback. -/

/-- Coherence of a recursion callback between the two recorder modes. -/
def Coherent (recf : RecFn) : Prop :=
  ∀ inst schema ictx sctx rctx errs,
    recf inst schema ictx sctx rctx .collect = .ok errs →
    recf inst schema ictx sctx rctx .fastfail = (if errs.isEmpty then .ok [] else .stop)

theorem okNil_coh {errs : List VErr} (h : (RRes.ok [] : RRes) = .ok errs) :
    (RRes.ok [] : RRes) = if errs.isEmpty then .ok [] else .stop := by
  injection h with h2
  subst h2
  rfl

theorem recordE_coh (e : VErr) (errs : List VErr)
    (h : recordE .collect e = .ok errs) :
    recordE .fastfail e = if errs.isEmpty then .ok [] else .stop := by
  simp only [recordE] at h ⊢
  injection h with h2
  subst h2
  rfl

theorem ite_recordE_coh {c : Prop} [Decidable c] (e : VErr) (errs : List VErr)
    (h : (if c then recordE .collect e else (.ok [] : RRes)) = .ok errs) :
    (if c then recordE .fastfail e else (.ok [] : RRes))
      = if errs.isEmpty then .ok [] else .stop := by
  by_cases hc : c
  · simp only [if_pos hc] at h ⊢; exact recordE_coh e errs h
  · simp only [if_neg hc] at h ⊢; exact okNil_coh h

theorem matchU64_coh (F : Option Nat) {c : Nat → Prop} [∀ n, Decidable (c n)]
    (e : VErr) (errs : List VErr)
    (h : (match F with
          | some n => if c n then recordE .collect e else (.ok [] : RRes)
          | none => .panicked) = .ok errs) :
    (match F with
     | some n => if c n then recordE .fastfail e else (.ok [] : RRes)
     | none => .panicked) = if errs.isEmpty then .ok [] else .stop := by
  cases F with
  | none => exact absurd h (by simp)
  | some n => exact ite_recordE_coh e errs h

theorem matchFailed_coh (F : Option Bool) (e : VErr) (errs : List VErr)
    (h : (match F with
          | none => (.panicked : RRes)
          | some f => if f then recordE .collect e else .ok []) = .ok errs) :
    (match F with
     | none => (.panicked : RRes)
     | some f => if f then recordE .fastfail e else .ok [])
      = if errs.isEmpty then .ok [] else .stop := by
  cases F with
  | none => exact absurd h (by simp)
  | some f =>
    cases f
    · exact okNil_coh h
    · exact recordE_coh e errs h

theorem seqList_coh {α : Type} {stepC stepF : α → RRes}
    (hstep : ∀ x errs, stepC x = .ok errs →
      stepF x = if errs.isEmpty then .ok [] else .stop) :
    ∀ (l : List α) (errs : List VErr), seqList stepC l = .ok errs →
      seqList stepF l = if errs.isEmpty then .ok [] else .stop := by
  intro l
  induction l with
  | nil =>
    intro errs h
    simp only [seqList] at h ⊢
    exact okNil_coh h
  | cons x xs ih =>
    intro errs h
    simp only [seqList] at h ⊢
    cases hx : stepC x with
    | ok e1 =>
      rw [hx] at h
      cases hur : seqList stepC xs with
      | ok e2 =>
        rw [hur] at h
        injection h with h2
        subst h2
        have hf := hstep x e1 hx
        have hr := ih e2 hur
        rw [hf]
        cases e1 with
        | nil =>
          simp only [List.isEmpty_nil, if_true]
          rw [hr]
          cases e2 with
          | nil => simp
          | cons b bs => simp
        | cons a as => simp
      | stop => rw [hur] at h; exact absurd h (by simp)
      | panicked => rw [hur] at h; exact absurd h (by simp)
      | fuelout => rw [hur] at h; exact absurd h (by simp)
    | stop => rw [hx] at h; exact absurd h (by simp)
    | panicked => rw [hx] at h; exact absurd h (by simp)
    | fuelout => rw [hx] at h; exact absurd h (by simp)

theorem containsScan_coh {recf : RecFn} (schema : Json)
    (ictx sctx rctx : Ctx) :
    ∀ (l : List (Nat × Json)) (errs : List VErr),
      containsScan recf schema ictx sctx rctx .collect l = .ok errs →
      containsScan recf schema ictx sctx rctx .fastfail l
        = if errs.isEmpty then .ok [] else .stop := by
  intro l
  induction l with
  | nil =>
    intro errs h
    simp only [containsScan] at h ⊢
    exact recordE_coh _ _ h
  | cons x rest ih =>
    obtain ⟨i, item⟩ := x
    intro errs h
    simp only [containsScan] at h ⊢
    cases hx : recf item schema (.num (.pos i) :: ictx) sctx rctx .fastfail with
    | ok e1 => rw [hx] at h; exact okNil_coh h
    | stop => rw [hx] at h; exact ih errs h
    | panicked => rw [hx] at h; exact absurd h (by simp)
    | fuelout => rw [hx] at h; exact absurd h (by simp)

theorem anyOfScan_coh (cfg : Cfg) {recf : RecFn} (inst : Json)
    (ictx sctx rctx : Ctx) :
    ∀ (l : List (Nat × Json)) (errs : List VErr),
      anyOfScan cfg recf inst ictx sctx rctx .collect l = .ok errs →
      anyOfScan cfg recf inst ictx sctx rctx .fastfail l
        = if errs.isEmpty then .ok [] else .stop := by
  intro l
  induction l with
  | nil =>
    intro errs h
    simp only [anyOfScan] at h ⊢
    exact recordE_coh _ _ h
  | cons x rest ih =>
    obtain ⟨index, subschema⟩ := x
    intro errs h
    simp only [anyOfScan] at h ⊢
    cases hx : recf inst
        (if 6 ≤ cfg.draft.number then bool_to_object_schema subschema else subschema)
        ictx (.num (.pos index) :: sctx) rctx .collect with
    | ok e1 =>
      rw [hx] at h
      cases e1 with
      | nil => exact okNil_coh h
      | cons a as => exact ih errs h
    | stop => rw [hx] at h; exact absurd h (by simp)
    | panicked => rw [hx] at h; exact absurd h (by simp)
    | fuelout => rw [hx] at h; exact absurd h (by simp)

/-- Mode coherence of a validator invocation, given coherence of the
recursion callback. -/
theorem runValidator_coh (v : VId) (ext : Ext) (cfg : Cfg)
    {recf : RecFn} (hrec : Coherent recf)
    (inst schema : Json) (parentm : Entries) (ictx sctx rctx : Ctx)
    (errs : List VErr)
    (h : runValidator v ext cfg recf inst schema parentm ictx sctx rctx .collect = .ok errs) :
    runValidator v ext cfg recf inst schema parentm ictx sctx rctx .fastfail
      = if errs.isEmpty then .ok [] else .stop := by
  cases v
  case ref =>
    cases schema <;> simp only [runValidator, ref_] at h ⊢ <;> try exact okNil_coh h
    rename_i sref
    cases hres : ext.resolveFragment sref rctx cfg.schema with
    | ok pr =>
      obtain ⟨scope, resolved⟩ := pr
      rw [hres] at h
      exact hrec _ _ _ _ _ _ h
    | error err =>
      rw [hres] at h
      exact recordE_coh _ _ h
  case additionalItemsV =>
    simp only [runValidator, additionalItems] at h ⊢
    by_cases h1 : (!(containsKeyJ parentm "items")) = true
    · simp only [if_pos h1] at h ⊢; exact okNil_coh h
    · simp only [if_neg h1] at h ⊢
      by_cases h2 : (isObjJ (lookupJ parentm "items")) = true
      · simp only [if_pos h2] at h ⊢; exact okNil_coh h
      · simp only [if_neg h2] at h ⊢
        cases inst <;> try exact okNil_coh h
        cases schema <;> try exact okNil_coh h
        · exact ite_recordE_coh _ _ h
        · exact seqList_coh (fun iv e hiv => hrec _ _ _ _ _ _ hiv) _ _ h
  case additionalPropertiesV =>
    cases inst <;> cases schema <;>
      simp only [runValidator, additionalProperties] at h ⊢ <;>
      try exact okNil_coh h
    · exact ite_recordE_coh _ _ h
    · refine seqList_coh (fun extra e hx => ?_) _ _ h
      revert hx
      cases lookupJ _ extra with
      | some w => exact fun hx => hrec _ _ _ _ _ _ hx
      | none => exact fun hx => absurd hx (by simp)
  case allOfV =>
    cases schema <;> simp only [runValidator, allOf] at h ⊢ <;> try exact okNil_coh h
    exact seqList_coh (fun iv e hiv => hrec _ _ _ _ _ _ hiv) _ _ h
  case anyOfV =>
    cases schema <;> simp only [runValidator, anyOf] at h ⊢ <;> try exact okNil_coh h
    exact anyOfScan_coh cfg _ _ _ _ _ _ h
  case constV =>
    simp only [runValidator, const_] at h ⊢
    exact ite_recordE_coh _ _ h
  case containsV =>
    cases inst <;> simp only [runValidator, contains] at h ⊢ <;> try exact okNil_coh h
    exact containsScan_coh _ _ _ _ _ _ h
  case dependenciesV =>
    cases inst <;> cases schema <;>
      simp only [runValidator, dependencies] at h ⊢ <;> try exact okNil_coh h
    rename_i instm schemam
    refine seqList_coh (fun pd e hx => ?_) _ _ h
    revert hx
    by_cases hc : (!containsKeyJ instm pd.1) = true
    · simp only [if_pos hc]
      exact fun hx => okNil_coh hx
    · simp only [if_neg hc]
      cases bool_to_object_schema pd.2 <;>
        first
          | exact fun hx => hrec _ _ _ _ _ _ hx
          | exact fun hx =>
              seqList_coh
                (fun dep0 e2 hd => by
                  revert hd
                  cases dep0 <;> try exact fun hd => okNil_coh hd
                  exact fun hd => ite_recordE_coh _ _ hd) _ _ hx
  case enumV =>
    cases schema <;> simp only [runValidator, enum_] at h ⊢ <;> try exact okNil_coh h
    exact ite_recordE_coh _ _ h
  case exclusiveMaximumV =>
    cases inst <;> cases schema <;>
      simp only [runValidator, exclusiveMaximum] at h ⊢ <;> try exact okNil_coh h
    exact ite_recordE_coh _ _ h
  case exclusiveMinimumV =>
    cases inst <;> cases schema <;>
      simp only [runValidator, exclusiveMinimum] at h ⊢ <;> try exact okNil_coh h
    exact ite_recordE_coh _ _ h
  case formatV =>
    cases inst <;> cases schema <;>
      simp only [runValidator, format] at h ⊢ <;> try exact okNil_coh h
    revert h
    cases cfg.draft.get_format_checker _ with
    | some checker => exact fun h => ite_recordE_coh _ _ h
    | none => exact fun h => okNil_coh h
  case ifV =>
    simp only [runValidator, if_] at h ⊢
    cases hx : recf inst schema ictx sctx rctx .fastfail with
    | ok e1 =>
      rw [hx] at h
      revert h
      cases lookupJ parentm "then" with
      | none => exact fun h => okNil_coh h
      | some thenv =>
        cases thenv <;> try exact fun h => okNil_coh h
        cases sctx with
        | nil => exact fun h => absurd h (by simp)
        | cons a t => exact fun h => hrec _ _ _ _ _ _ h
    | stop =>
      rw [hx] at h
      revert h
      cases lookupJ parentm "else" with
      | none => exact fun h => okNil_coh h
      | some elsev =>
        cases elsev <;> try exact fun h => okNil_coh h
        cases sctx with
        | nil => exact fun h => absurd h (by simp)
        | cons a t => exact fun h => hrec _ _ _ _ _ _ h
    | panicked => rw [hx] at h; exact absurd h (by simp)
    | fuelout => rw [hx] at h; exact absurd h (by simp)
  case itemsV =>
    cases inst <;> simp only [runValidator, items] at h ⊢ <;> try exact okNil_coh h
    revert h
    cases bool_to_object_schema schema <;> try exact fun h => okNil_coh h
    · exact fun h => seqList_coh (fun iv e hiv => hrec _ _ _ _ _ _ hiv) _ _ h
    · exact fun h => seqList_coh (fun p e hp => hrec _ _ _ _ _ _ hp) _ _ h
  case maxItemsV =>
    cases inst <;> cases schema <;>
      simp only [runValidator, maxItems] at h ⊢ <;> try exact okNil_coh h
    exact matchU64_coh _ _ _ h
  case maxLengthV =>
    cases inst <;> cases schema <;>
      simp only [runValidator, maxLength] at h ⊢ <;> try exact okNil_coh h
    exact matchU64_coh _ _ _ h
  case maxPropertiesV =>
    cases inst <;> cases schema <;>
      simp only [runValidator, maxProperties] at h ⊢ <;> try exact okNil_coh h
    exact matchU64_coh _ _ _ h
  case maximumV =>
    cases inst <;> cases schema <;>
      simp only [runValidator, maximum] at h ⊢ <;> try exact okNil_coh h
    exact ite_recordE_coh _ _ h
  case maximumDraft4 =>
    cases inst <;> cases schema <;>
      simp only [runValidator, maximum_draft4] at h ⊢ <;> try exact okNil_coh h
    revert h
    by_cases hb : (((lookupJ parentm "exclusiveMaximum").bind asBool).getD false) = true
    · simp only [if_pos hb]; exact fun h => ite_recordE_coh _ _ h
    · simp only [if_neg hb]; exact fun h => ite_recordE_coh _ _ h
  case minItemsV =>
    cases inst <;> cases schema <;>
      simp only [runValidator, minItems] at h ⊢ <;> try exact okNil_coh h
    exact matchU64_coh _ _ _ h
  case minLengthV =>
    cases inst <;> cases schema <;>
      simp only [runValidator, minLength] at h ⊢ <;> try exact okNil_coh h
    exact matchU64_coh _ _ _ h
  case minPropertiesV =>
    cases inst <;> cases schema <;>
      simp only [runValidator, minProperties] at h ⊢ <;> try exact okNil_coh h
    exact matchU64_coh _ _ _ h
  case minimumV =>
    cases inst <;> cases schema <;>
      simp only [runValidator, minimum] at h ⊢ <;> try exact okNil_coh h
    exact ite_recordE_coh _ _ h
  case minimumDraft4 =>
    cases inst <;> cases schema <;>
      simp only [runValidator, minimum_draft4] at h ⊢ <;> try exact okNil_coh h
    revert h
    by_cases hb : (((lookupJ parentm "exclusiveMinimum").bind asBool).getD false) = true
    · simp only [if_pos hb]; exact fun h => ite_recordE_coh _ _ h
    · simp only [if_neg hb]; exact fun h => ite_recordE_coh _ _ h
  case multipleOfV =>
    cases inst <;> cases schema <;>
      simp only [runValidator, multipleOf] at h ⊢ <;> try exact okNil_coh h
    exact matchFailed_coh _ _ _ h
  case notV =>
    simp only [runValidator, not_] at h ⊢
    cases hx : recf inst schema ictx sctx rctx .fastfail with
    | ok e1 => rw [hx] at h; exact recordE_coh _ _ h
    | stop => rw [hx] at h; exact okNil_coh h
    | panicked => rw [hx] at h; exact absurd h (by simp)
    | fuelout => rw [hx] at h; exact absurd h (by simp)
  case oneOfV =>
    cases schema <;> simp only [runValidator, oneOf] at h ⊢ <;> try exact okNil_coh h
    rename_i schemal
    cases hfirst : oneOf_first cfg recf inst ictx sctx rctx schemal.enum with
    | found rest =>
      rw [hfirst] at h
      simp only [oneOf_tail] at h ⊢
      cases hsec : oneOf_second cfg recf inst ictx sctx rctx rest.enum <;>
        rw [hsec] at h <;> simp only [oneOf_tail2] at h ⊢
      · exact recordE_coh _ _ h
      · exact okNil_coh h
      · exact absurd h (by simp)
      · exact absurd h (by simp)
    | noneMatched =>
      rw [hfirst] at h
      simp only [oneOf_tail] at h ⊢
      exact recordE_coh _ _ h
    | panicked =>
      rw [hfirst] at h
      simp only [oneOf_tail] at h
      exact absurd h (by simp)
    | fuelout =>
      rw [hfirst] at h
      simp only [oneOf_tail] at h
      exact absurd h (by simp)
  case patternV =>
    cases inst <;> cases schema <;>
      simp only [runValidator, pattern] at h ⊢ <;> try exact okNil_coh h
    revert h
    cases ext.regexNew _ with
    | some re => exact fun h => ite_recordE_coh _ _ h
    | none => exact fun h => recordE_coh _ _ h
  case patternPropertiesV =>
    cases inst <;> cases schema <;>
      simp only [runValidator, patternProperties] at h ⊢ <;> try exact okNil_coh h
    refine seqList_coh (fun ps e hx => ?_) _ _ h
    revert hx
    cases ext.regexNew ps.1 with
    | some re =>
      exact fun hx =>
        seqList_coh
          (fun kv e2 hk => by
            revert hk
            by_cases hre : (re kv.1) = true
            · simp only [if_pos hre]
              exact fun hk => hrec _ _ _ _ _ _ hk
            · simp only [if_neg hre]
              exact fun hk => okNil_coh hk) _ _ hx
    | none => exact fun hx => recordE_coh _ _ hx
  case propertiesV =>
    cases inst <;> cases schema <;>
      simp only [runValidator, properties] at h ⊢ <;> try exact okNil_coh h
    refine seqList_coh (fun ps e hx => ?_) _ _ h
    revert hx
    cases lookupJ _ ps.1 with
    | some w => exact fun hx => hrec _ _ _ _ _ _ hx
    | none => exact fun hx => okNil_coh hx
  case propertyNamesV =>
    cases inst <;> simp only [runValidator, propertyNames] at h ⊢ <;>
      try exact okNil_coh h
    exact seqList_coh (fun kv e hx => hrec _ _ _ _ _ _ hx) _ _ h
  case requiredV =>
    cases inst <;> cases schema <;>
      simp only [runValidator, required] at h ⊢ <;> try exact okNil_coh h
    refine seqList_coh (fun property e hx => ?_) _ _ h
    revert hx
    cases property <;> try exact fun hx => okNil_coh hx
    exact fun hx => ite_recordE_coh _ _ hx
  case typeV =>
    simp only [runValidator, type_] at h ⊢
    exact ite_recordE_coh _ _ h
  case uniqueItemsV =>
    cases inst <;> cases schema <;>
      simp only [runValidator, uniqueItems] at h ⊢ <;> try exact okNil_coh h
    exact ite_recordE_coh _ _ h

/-- Mode coherence of one dispatch level. -/
theorem descendStep_coh (ext : Ext) (cfg : Cfg) {recf : RecFn}
    (hrec : Coherent recf) : Coherent (descendStep ext cfg recf) := by
  intro inst schema ictx sctx rctx errs h
  cases schema with
  | bool b =>
    simp only [descendStep] at h ⊢
    cases b
    · exact recordE_coh _ _ h
    · exact okNil_coh h
  | obj schemam =>
    simp only [descendStep] at h ⊢
    by_cases hcont : containsKeyJ schemam "$ref" = true
    · simp only [if_pos hcont] at h ⊢
      revert h
      cases cfg.draft.get_validator "$ref" with
      | none => exact fun h => okNil_coh h
      | some v =>
        cases lookupJ schemam "$ref" with
        | none => exact fun h => absurd h (by simp)
        | some refv => exact fun h => runValidator_coh v ext cfg hrec _ _ _ _ _ _ _ h
    · simp only [if_neg hcont] at h ⊢
      refine seqList_coh (fun kv e hx => ?_) _ _ h
      revert hx
      cases cfg.draft.get_validator kv.1 with
      | none => exact fun hx => okNil_coh hx
      | some v => exact fun hx => runValidator_coh v ext cfg hrec _ _ _ _ _ _ _ hx
  | null => simp only [descendStep] at h ⊢; exact recordE_coh _ _ h
  | num n => simp only [descendStep] at h ⊢; exact recordE_coh _ _ h
  | str st => simp only [descendStep] at h ⊢; exact recordE_coh _ _ h
  | arr l => simp only [descendStep] at h ⊢; exact recordE_coh _ _ h

/-- Mode coherence of the fuelled descent: if the collect-all run
returns normally, the fast-fail run succeeds when it recorded nothing
and stops otherwise. -/
theorem descend_coh (ext : Ext) (cfg : Cfg) :
    ∀ fuel, Coherent (descend ext cfg fuel) := by
  intro fuel
  induction fuel with
  | zero => intro _ _ _ _ _ _ h; exact absurd h (by simp [descend])
  | succ f ih => exact descendStep_coh ext cfg ih

/-! ## Concrete fixtures for witnesses and counterexamples -/

/-- A concrete external-collaborator instantiation: a regex compiler
that rejects every pattern, a resolver that never resolves, and
always-true format predicates. -/
def extTest : Ext where
  regexNew := fun _ => none
  resolveFragment := fun _ _ _ => .error (newWithSchemaContext "unresolved" [])
  runFormat := fun _ _ => true

/-- A draft-7 configuration over the empty root schema. -/
def cfgTest : Cfg := ⟨.draft7, .obj []⟩

/-- A draft-4 configuration over the empty root schema. -/
def cfgTest4 : Cfg := ⟨.draft4, .obj []⟩

/-- An inert recursion callback, for validators that do not descend. -/
def recfNull : RecFn := fun _ _ _ _ _ _ => .fuelout

/-! ## The claims -/

/-- C1: the spec says uniqueItems compares numbers by mathematical
value, so that [1, 1.0] is rejected.  The code compares through
ValueWrapper::eq, which is serde PartialEq: integer-encoded 1 and
float-encoded 1.0 are distinct, [1, 1.0] counts as unique, and the
validator reports no error — although the crate's own json_equal
(documented as the JSON-Schema equality) equates the two values.
[1, "1"] is accepted, as the claim says. -/
theorem uniqueItems_serde_equality_no_error :
    uniqueItems extTest cfgTest recfNull
        (.arr [.num (.pos 1), .num (.flt 1)]) (.bool true) [] [] [] [] .collect
      = .ok []
    ∧ uniqueItems extTest cfgTest recfNull
        (.arr [.num (.pos 1), .str "1"]) (.bool true) [] [] [] [] .collect
      = .ok []
    ∧ has_unique_elements [.num (.pos 1), .num (.flt 1)] = true
    ∧ json_equal (.num (.pos 1)) (.num (.flt 1)) = true := by
  refine ⟨rfl, rfl, rfl, ?_⟩
  decide

/-- C2: the spec says enum matches through the numeric-aware equality,
so instance 1 matches enum element 1.0.  The code compares with serde
PartialEq (val == instance), so the match fails and an error is
produced, although json_equal equates the values. -/
theorem enum_serde_equality_error :
    enum_ extTest cfgTest recfNull (.num (.pos 1)) (.arr [.num (.flt 1)])
        [] [] [] [] .collect
      = .ok [newWithContext "is not one of enum" [] []]
    ∧ json_equal (.num (.pos 1)) (.num (.flt 1)) = true := by
  refine ⟨rfl, ?_⟩
  decide

/-- C3: the claim says multipleOf never panics and dispatches on the
instance encoding.  The code dispatches on the schema encoding: for the
float instance 1.5 against the integer divisor 2 it takes the u64
branch and unwraps as_u64 of 1.5, which is None — a panic. -/
theorem multipleOf_u64_branch_panics :
    multipleOf extTest cfgTest recfNull (.num (.flt (3 / 2))) (.num (.pos 2))
      [] [] [] [] .collect = .panicked := rfl

/-- C4 counterexample: with the two properties "a" and "b" both
missing, required produces two errors, not the single error listing all
missing names that the claim describes. -/
theorem required_two_missing_two_errors :
    required extTest cfgTest recfNull (.obj []) (.arr [.str "a", .str "b"])
        [] [] [] [] .collect
      = .ok [newWithContext ("required property " ++ render (.str "a") ++ " is missing") [] [],
             newWithContext ("required property " ++ render (.str "b") ++ " is missing") [] []]
    ∧ ¬ ∃ e, required extTest cfgTest recfNull (.obj [])
        (.arr [.str "a", .str "b"]) [] [] [] [] .collect = .ok [e] := by
  refine ⟨rfl, ?_⟩
  rintro ⟨e, he⟩
  have h0 : required extTest cfgTest recfNull (.obj [])
      (.arr [.str "a", .str "b"]) [] [] [] [] .collect
      = .ok [newWithContext ("required property " ++ render (.str "a") ++ " is missing") [] [],
             newWithContext ("required property " ++ render (.str "b") ++ " is missing") [] []] := rfl
  rw [h0] at he
  injection he with h3
  exact absurd h3 (by simp)

/-- C4 (amended): required records one error per missing string-valued
property name, in schema order, each error naming that property; when
no named property is missing it records nothing. -/
theorem required_one_error_per_missing (ext : Ext) (cfg : Cfg) (recf : RecFn)
    (instm : Entries) (props : List Json) (parentm : Entries)
    (ictx sctx rctx : Ctx) :
    required ext cfg recf (.obj instm) (.arr props) parentm ictx sctx rctx .collect
      = .ok ((props.filter (fun p =>
          match p with
          | .str key => !(containsKeyJ instm key)
          | _ => false)).map (fun p =>
            newWithContext ("required property " ++ render p ++ " is missing")
              ictx sctx)) := by
  simp only [required]
  induction props with
  | nil => rfl
  | cons p ps ih =>
    simp only [seqList]
    rw [ih]
    cases p with
    | str key =>
      by_cases hk : (!(containsKeyJ instm key)) = true
      · simp [hk, recordE, List.filter_cons]
      · simp [hk, recordE, List.filter_cons]
    | null => simp [List.filter_cons]
    | bool b => simp [List.filter_cons]
    | num n => simp [List.filter_cons]
    | arr l => simp [List.filter_cons]
    | obj m => simp [List.filter_cons]

/-- C5: when a schema object contains $ref, descend runs exactly the
registered $ref validator on the reference value, with the schema-path
context extended by "$ref"; the validators of sibling keywords are
never consulted, so two schema objects with the same $ref value and
different siblings validate identically. -/
theorem descend_ref_ignores_siblings (ext : Ext) (cfg : Cfg) (fuel : Nat)
    (inst : Json) (m1 m2 : Entries) (v : Json)
    (ictx sctx rctx : Ctx) (mode : Mode)
    (h1 : lookupJ m1 "$ref" = some v) (h2 : lookupJ m2 "$ref" = some v) :
    descend ext cfg (fuel + 1) inst (.obj m1) ictx sctx rctx mode
      = ref_ ext cfg (descend ext cfg fuel) inst v m1 ictx
          (.str "$ref" :: sctx) rctx mode
    ∧ descend ext cfg (fuel + 1) inst (.obj m1) ictx sctx rctx mode
      = descend ext cfg (fuel + 1) inst (.obj m2) ictx sctx rctx mode := by
  have hv : cfg.draft.get_validator "$ref" = some .ref := by
    cases cfg.draft <;> rfl
  have key : ∀ (m : Entries), lookupJ m "$ref" = some v →
      descend ext cfg (fuel + 1) inst (.obj m) ictx sctx rctx mode
        = ref_ ext cfg (descend ext cfg fuel) inst v m ictx
            (.str "$ref" :: sctx) rctx mode := by
    intro m hm
    have hc : containsKeyJ m "$ref" = true := by simp [containsKeyJ, hm]
    simp only [descend, descendStep, hc, if_true, hv, hm, runValidator]
  have e1 := key m1 h1
  have e2 := key m2 h2
  refine ⟨e1, ?_⟩
  rw [e1, e2]
  rfl

/-- C5 witness: a concrete $ref schema with and without a sibling
minimum keyword. -/
theorem descend_ref_ignores_siblings_witness :
    descend extTest cfgTest 1 (.num (.pos 1))
        (.obj [("$ref", .str "#"), ("minimum", .num (.pos 5))]) [] [] [] .collect
      = ref_ extTest cfgTest (descend extTest cfgTest 0) (.num (.pos 1))
          (.str "#") [("$ref", .str "#"), ("minimum", .num (.pos 5))] []
          [.str "$ref"] [] .collect
    ∧ descend extTest cfgTest 1 (.num (.pos 1))
        (.obj [("$ref", .str "#"), ("minimum", .num (.pos 5))]) [] [] [] .collect
      = descend extTest cfgTest 1 (.num (.pos 1))
          (.obj [("$ref", .str "#")]) [] [] [] .collect :=
  descend_ref_ignores_siblings extTest cfgTest 0 (.num (.pos 1))
    [("$ref", .str "#"), ("minimum", .num (.pos 5))] [("$ref", .str "#")]
    (.str "#") [] [] [] .collect (by decide) (by decide)

/-- Dropping from an index-enumerated list enumerates the dropped list
from the offset: the skip-based loop of additionalItems visits exactly
the elements from the tuple length onward, with their original indices. -/
theorem enumFrom_drop {α : Type} :
    ∀ (N : Nat) (l : List α) (n : Nat),
      (l.enumFrom n).drop N = (l.drop N).enumFrom (n + N) := by
  intro N
  induction N with
  | zero => intro l n; simp
  | succ N ih =>
    intro l n
    cases l with
    | nil => simp [List.enumFrom]
    | cons x xs =>
      simp only [List.enumFrom, List.drop]
      rw [ih xs (n + 1)]
      congr 1
      omega

/-- C7 counterexample: with sibling items set to the boolean true (not
an array), additionalItems false still fires on a one-element array,
producing an error where the claim requires none. -/
theorem additionalItems_active_for_boolean_items :
    additionalItems extTest cfgTest recfNull (.arr [.num (.pos 1)]) (.bool false)
        [("items", .bool true), ("additionalItems", .bool false)] [] [] [] .collect
      = .ok [newWithContext "Additional items are not allowed" [] []]
    ∧ lookupJ [("items", .bool true), ("additionalItems", .bool false)] "items"
      = some (.bool true)
    ∧ (∀ l, Json.bool true ≠ .arr l) := by
  refine ⟨rfl, rfl, ?_⟩
  intro l h
  cases h

/-- C7 (amended): additionalItems is inert when the sibling items key
is absent or object-valued; otherwise the tuple length N is the length
of items when it is an array and zero when it is not (for example a
boolean), the elements from index N onward are validated against an
object-valued additionalItems, and a false additionalItems yields
exactly one error precisely when the array is longer than N. -/
theorem additionalItems_characterization (ext : Ext) (cfg : Cfg) (recf : RecFn)
    (l : List Json) (parentm : Entries) (ictx sctx rctx : Ctx) (mode : Mode) :
    (lookupJ parentm "items" = none →
      ∀ inst schema,
        additionalItems ext cfg recf inst schema parentm ictx sctx rctx mode = .ok [])
    ∧ (∀ m, lookupJ parentm "items" = some (.obj m) →
      ∀ inst schema,
        additionalItems ext cfg recf inst schema parentm ictx sctx rctx mode = .ok [])
    ∧ (∀ itemsv, lookupJ parentm "items" = some itemsv → isObjJ (some itemsv) = false →
        (additionalItems ext cfg recf (.arr l) (.bool false) parentm ictx sctx rctx .collect
            = .ok []
          ↔ l.length ≤ (asArray itemsv).elim 0 List.length)
        ∧ ((asArray itemsv).elim 0 List.length < l.length →
            additionalItems ext cfg recf (.arr l) (.bool false) parentm ictx sctx rctx .collect
              = .ok [newWithContext "Additional items are not allowed" ictx sctx])
        ∧ (∀ sm, additionalItems ext cfg recf (.arr l) (.obj sm) parentm ictx sctx rctx mode
            = seqList (fun iv =>
                recf iv.2 (.obj sm) (.num (.pos iv.1) :: ictx) sctx rctx mode)
                ((l.drop ((asArray itemsv).elim 0 List.length)).enumFrom
                  ((asArray itemsv).elim 0 List.length)))) := by
  refine ⟨?_, ?_, ?_⟩
  · intro hnone inst schema
    have hc : containsKeyJ parentm "items" = false := by
      simp [containsKeyJ, hnone]
    simp [additionalItems, hc]
  · intro m hobj inst schema
    have hc : containsKeyJ parentm "items" = true := by
      simp [containsKeyJ, hobj]
    have hio : isObjJ (lookupJ parentm "items") = true := by
      rw [hobj]; rfl
    simp [additionalItems, hc, hio]
  · intro itemsv hit hni
    have hc : containsKeyJ parentm "items" = true := by
      simp [containsKeyJ, hit]
    have hio : isObjJ (lookupJ parentm "items") = false := by
      rw [hit]; exact hni
    refine ⟨?_, ?_, ?_⟩
    · simp only [additionalItems, hc, hio, hit]
      by_cases hlen : (asArray itemsv).elim 0 List.length < l.length
      · simp [recordE, hni, hlen] <;> omega
      · simp [recordE, hni, hlen] <;> omega
    · intro hlen
      simp only [additionalItems, hc, hio, hit]
      simp [recordE, hni, hlen]
    · intro sm
      simp only [additionalItems, hc, hio, hit]
      have he : l.enum.drop ((asArray itemsv).elim 0 List.length)
          = (l.drop ((asArray itemsv).elim 0 List.length)).enumFrom
              ((asArray itemsv).elim 0 List.length) := by
        have := enumFrom_drop ((asArray itemsv).elim 0 List.length) l 0
        simpa [List.enum] using this
      simp [hni, he]

/-- C7 witness: items is the boolean true, so the tuple length is zero
and both the false-schema error condition and the object-schema
element loop act on the whole array. -/
theorem additionalItems_characterization_witness :
    (additionalItems extTest cfgTest recfNull (.arr [.null]) (.bool false)
        [("items", .bool true)] [] [] [] .collect = .ok []
      ↔ ([Json.null] : List Json).length ≤ (asArray (.bool true)).elim 0 List.length)
    ∧ additionalItems extTest cfgTest recfNull (.arr [.null]) (.obj [])
        [("items", .bool true)] [] [] [] .collect
      = seqList (fun iv =>
          recfNull iv.2 (.obj []) (.num (.pos iv.1) :: []) [] [] .collect)
          ((([Json.null] : List Json).drop ((asArray (.bool true)).elim 0 List.length)).enumFrom
            ((asArray (.bool true)).elim 0 List.length)) := by
  have h := additionalItems_characterization extTest cfgTest recfNull [Json.null]
    [("items", .bool true)] [] [] [] .collect
  have h3 := h.2.2 (.bool true) (by decide) (by decide)
  exact ⟨h3.1, h3.2.2 []⟩

/-- C9 counterexample: under Draft 4 the code reads $id first, falling
back to id, so with both keys present the base URI comes from $id, not
from id as the claim states. -/
theorem id_of_draft4_prefers_dollar_id :
    id_of .draft4 (.obj [("$id", .str "urn:a"), ("id", .str "urn:b")]) = some "urn:a"
    ∧ lookupJ [("$id", .str "urn:a"), ("id", .str "urn:b")] "id" = some (.str "urn:b")
    ∧ (some "urn:a" : Option String) ≠ some "urn:b" := by
  exact ⟨rfl, rfl, by decide⟩

/-- C9 (amended): the identifier of a subschema object is the
string value of $id under Drafts 6 and 7; under Draft 4 it is the
string value of the first present key among $id and id (so id is only
consulted when $id is absent); and the resolver's base URL is that
identifier, or the sentinel document:/// when there is none. -/
theorem id_of_characterization (m : Entries) (s : Json) :
    id_of .draft4 (.obj m)
      = ((lookupJ m "$id").orElse (fun _ => lookupJ m "id")).bind asString
    ∧ id_of .draft6 (.obj m) = (lookupJ m "$id").bind asString
    ∧ id_of .draft7 (.obj m) = (lookupJ m "$id").bind asString
    ∧ (containsKeyJ m "$id" = false →
        id_of .draft4 (.obj m) = (lookupJ m "id").bind asString)
    ∧ (∀ d, id_of d s = none → resolver_base_url d s = DOCUMENT_PROTOCOL)
    ∧ (∀ d u, id_of d s = some u → resolver_base_url d s = u) := by
  refine ⟨rfl, rfl, rfl, ?_, ?_, ?_⟩
  · intro h
    have hnone : lookupJ m "$id" = none := by
      cases hx : lookupJ m "$id" with
      | none => rfl
      | some v => rw [containsKeyJ, hx] at h; simp at h
    simp [id_of, hnone]
  · intro d h
    simp [resolver_base_url, h]
  · intro d u h
    simp [resolver_base_url, h]

/-- C9 witness: a schema with only an id key under Draft 4, a root
without identifier falling to the sentinel, and a root whose $id
becomes the base URL. -/
theorem id_of_characterization_witness :
    id_of .draft4 (.obj [("id", .str "urn:b")]) = (lookupJ [("id", .str "urn:b")] "id").bind asString
    ∧ resolver_base_url .draft7 (.obj []) = DOCUMENT_PROTOCOL
    ∧ resolver_base_url .draft7 (.obj [("$id", .str "urn:a")]) = "urn:a" := by
  refine ⟨?_, ?_, ?_⟩
  · exact (id_of_characterization [("id", .str "urn:b")] (.obj [])).2.2.2.1 (by decide)
  · exact (id_of_characterization [] (.obj [])).2.2.2.2.1 .draft7 (by decide)
  · exact (id_of_characterization [] (.obj [("$id", .str "urn:a")])).2.2.2.2.2 .draft7 "urn:a" (by decide)

/-- C10: every type-guarded keyword validator is inert on instances of
the wrong JSON type: the numeric comparators and multipleOf on
non-numbers, the string keywords on non-strings, the array keywords on
non-arrays, and the object keywords on non-objects. -/
theorem type_guarded_validators (ext : Ext) (cfg : Cfg) (recf : RecFn)
    (inst schema : Json) (parentm : Entries) (ictx sctx rctx : Ctx) (mode : Mode) :
    ((∀ n, inst ≠ .num n) →
      minimum ext cfg recf inst schema parentm ictx sctx rctx mode = .ok []
      ∧ maximum ext cfg recf inst schema parentm ictx sctx rctx mode = .ok []
      ∧ exclusiveMinimum ext cfg recf inst schema parentm ictx sctx rctx mode = .ok []
      ∧ exclusiveMaximum ext cfg recf inst schema parentm ictx sctx rctx mode = .ok []
      ∧ multipleOf ext cfg recf inst schema parentm ictx sctx rctx mode = .ok [])
    ∧ ((∀ st, inst ≠ .str st) →
      minLength ext cfg recf inst schema parentm ictx sctx rctx mode = .ok []
      ∧ maxLength ext cfg recf inst schema parentm ictx sctx rctx mode = .ok []
      ∧ pattern ext cfg recf inst schema parentm ictx sctx rctx mode = .ok []
      ∧ format ext cfg recf inst schema parentm ictx sctx rctx mode = .ok [])
    ∧ ((∀ il, inst ≠ .arr il) →
      minItems ext cfg recf inst schema parentm ictx sctx rctx mode = .ok []
      ∧ maxItems ext cfg recf inst schema parentm ictx sctx rctx mode = .ok []
      ∧ uniqueItems ext cfg recf inst schema parentm ictx sctx rctx mode = .ok []
      ∧ contains ext cfg recf inst schema parentm ictx sctx rctx mode = .ok [])
    ∧ ((∀ im, inst ≠ .obj im) →
      required ext cfg recf inst schema parentm ictx sctx rctx mode = .ok []
      ∧ minProperties ext cfg recf inst schema parentm ictx sctx rctx mode = .ok []
      ∧ maxProperties ext cfg recf inst schema parentm ictx sctx rctx mode = .ok []
      ∧ properties ext cfg recf inst schema parentm ictx sctx rctx mode = .ok []) := by
  refine ⟨?_, ?_, ?_, ?_⟩ <;> intro h
  · cases inst <;>
      first
        | exact absurd rfl (h _)
        | (cases schema <;> exact ⟨rfl, rfl, rfl, rfl, rfl⟩)
  · cases inst <;>
      first
        | exact absurd rfl (h _)
        | (cases schema <;> exact ⟨rfl, rfl, rfl, rfl⟩)
  · cases inst <;>
      first
        | exact absurd rfl (h _)
        | (cases schema <;> exact ⟨rfl, rfl, rfl, rfl⟩)
  · cases inst <;>
      first
        | exact absurd rfl (h _)
        | (cases schema <;> exact ⟨rfl, rfl, rfl, rfl⟩)

/-- C10 witness: the null instance is of none of the four guarded
types, so all seventeen validators are inert on it. -/
theorem type_guarded_validators_witness :
    minimum extTest cfgTest recfNull .null (.num (.pos 3)) [] [] [] [] .collect = .ok []
    ∧ maximum extTest cfgTest recfNull .null (.num (.pos 3)) [] [] [] [] .collect = .ok []
    ∧ exclusiveMinimum extTest cfgTest recfNull .null (.num (.pos 3)) [] [] [] [] .collect = .ok []
    ∧ exclusiveMaximum extTest cfgTest recfNull .null (.num (.pos 3)) [] [] [] [] .collect = .ok []
    ∧ multipleOf extTest cfgTest recfNull .null (.num (.pos 3)) [] [] [] [] .collect = .ok []
    ∧ minLength extTest cfgTest recfNull .null (.num (.pos 3)) [] [] [] [] .collect = .ok []
    ∧ maxLength extTest cfgTest recfNull .null (.num (.pos 3)) [] [] [] [] .collect = .ok []
    ∧ pattern extTest cfgTest recfNull .null (.num (.pos 3)) [] [] [] [] .collect = .ok []
    ∧ format extTest cfgTest recfNull .null (.num (.pos 3)) [] [] [] [] .collect = .ok []
    ∧ minItems extTest cfgTest recfNull .null (.num (.pos 3)) [] [] [] [] .collect = .ok []
    ∧ maxItems extTest cfgTest recfNull .null (.num (.pos 3)) [] [] [] [] .collect = .ok []
    ∧ uniqueItems extTest cfgTest recfNull .null (.num (.pos 3)) [] [] [] [] .collect = .ok []
    ∧ contains extTest cfgTest recfNull .null (.num (.pos 3)) [] [] [] [] .collect = .ok []
    ∧ required extTest cfgTest recfNull .null (.num (.pos 3)) [] [] [] [] .collect = .ok []
    ∧ minProperties extTest cfgTest recfNull .null (.num (.pos 3)) [] [] [] [] .collect = .ok []
    ∧ maxProperties extTest cfgTest recfNull .null (.num (.pos 3)) [] [] [] [] .collect = .ok []
    ∧ properties extTest cfgTest recfNull .null (.num (.pos 3)) [] [] [] [] .collect = .ok [] := by
  have h := type_guarded_validators extTest cfgTest recfNull .null (.num (.pos 3))
    [] [] [] [] .collect
  have h1 := h.1 (fun n hn => Json.noConfusion hn)
  have h2 := h.2.1 (fun st hs => Json.noConfusion hs)
  have h3 := h.2.2.1 (fun il ha => Json.noConfusion ha)
  have h4 := h.2.2.2 (fun im ho => Json.noConfusion ho)
  exact ⟨h1.1, h1.2.1, h1.2.2.1, h1.2.2.2.1, h1.2.2.2.2,
    h2.1, h2.2.1, h2.2.2.1, h2.2.2.2,
    h3.1, h3.2.1, h3.2.2.1, h3.2.2.2,
    h4.1, h4.2.1, h4.2.2.1, h4.2.2.2⟩

/-- C8: validating an instance against the schema consisting solely of
the keyword not applied to a subschema S produces no error exactly when
validating the instance against S produces at least one error (the
hypothesis fixes a normally-returning collect run of S; the not schema
is given one more unit of fuel for its extra nesting level). -/
theorem not_schema_succeeds_iff_subschema_fails (ext : Ext) (cfg : Cfg)
    (fuel : Nat) (inst S : Json) (ictx sctx rctx : Ctx) (errs : List VErr)
    (h : descend ext cfg fuel inst S ictx sctx rctx .collect = .ok errs) :
    descend ext cfg (fuel + 1) inst (.obj [("not", S)]) ictx sctx rctx .collect = .ok []
      ↔ errs ≠ [] := by
  have hnv : cfg.draft.get_validator "not" = some .notV := by
    cases cfg.draft <;> rfl
  have hcont : containsKeyJ [("not", S)] "$ref" = false := by
    simp [containsKeyJ, lookupJ]
  have hunfold : descend ext cfg (fuel + 1) inst (.obj [("not", S)]) ictx sctx rctx .collect
      = (match descend ext cfg fuel inst S ictx (.str "not" :: sctx) rctx .fastfail with
         | .ok _ => RRes.ok [newWithContext "not" ictx (.str "not" :: sctx)]
         | .stop => .ok []
         | .panicked => .panicked
         | .fuelout => .fuelout) := by
    cases hin : descend ext cfg fuel inst S ictx (.str "not" :: sctx) rctx .fastfail <;>
      simp [descend, descendStep, hcont, seqList, hnv, runValidator, not_, recordE, hin]
  have hsh := descend_shape ext cfg fuel inst S ictx sctx ictx (.str "not" :: sctx)
    rctx .collect
  rw [h] at hsh
  rcases shape_cases hsh with ⟨e1, e2, he1, he2, hlen⟩ | ⟨he1, _⟩ | ⟨he1, _⟩ | ⟨he1, _⟩
  · injection he1 with he1
    subst he1
    have hff := descend_coh ext cfg fuel inst S ictx (.str "not" :: sctx) rctx e2 he2
    cases e2 with
    | nil =>
      simp only [List.isEmpty_nil, if_true] at hff
      rw [hunfold, hff]
      have : errs = [] := List.length_eq_zero.mp hlen
      subst this
      simp
    | cons b bs =>
      simp only [List.isEmpty_cons, if_false] at hff
      rw [hunfold, hff]
      have : errs ≠ [] := by
        intro hcon
        rw [hcon] at hlen
        simp at hlen
      simp [this]
  · exact absurd he1 (by simp)
  · exact absurd he1 (by simp)
  · exact absurd he1 (by simp)

/-- C8 witness: instance 1 fails the schema requiring minimum 5, so the
not-wrapped schema accepts it. -/
theorem not_schema_succeeds_iff_subschema_fails_witness :
    descend extTest cfgTest 2 (.num (.pos 1)) (.obj [("minimum", .num (.pos 5))])
        [] [] [] .collect
      = .ok [newWithContext "instance < minimum" [] [.str "minimum"]]
    ∧ (descend extTest cfgTest 3 (.num (.pos 1))
          (.obj [("not", .obj [("minimum", .num (.pos 5))])]) [] [] [] .collect = .ok []
        ↔ ([newWithContext "instance < minimum" [] [.str "minimum"]] : List VErr) ≠ []) := by
  have h0 : descend extTest cfgTest 2 (.num (.pos 1))
      (.obj [("minimum", .num (.pos 5))]) [] [] [] .collect
      = .ok [newWithContext "instance < minimum" [] [.str "minimum"]] := rfl
  exact ⟨h0, not_schema_succeeds_iff_subschema_fails extTest cfgTest 2 (.num (.pos 1))
    (.obj [("minimum", .num (.pos 5))]) [] [] []
    [newWithContext "instance < minimum" [] [.str "minimum"]] h0⟩

/-! ## The oneOf scans, characterised by a per-element verdict -/

theorem exists_first_true {α : Type} {p : α → Bool} :
    ∀ l : List α, l.any p = true →
      ∃ l1 a l2, l = l1 ++ a :: l2 ∧ (∀ x ∈ l1, p x = false) ∧ p a = true := by
  intro l
  induction l with
  | nil => intro h; simp at h
  | cons x xs ih =>
    intro h
    by_cases hx : p x = true
    · exact ⟨[], x, xs, rfl, by simp, hx⟩
    · have hx2 : p x = false := by simpa using hx
      have h2 : xs.any p = true := by
        simp only [List.any_cons, hx2, Bool.false_or] at h
        exact h
      obtain ⟨l1, a, l2, heq, hl1, ha⟩ := ih h2
      exact ⟨x :: l1, a, l2, by rw [heq, List.cons_append], by
        intro y hy
        rcases List.mem_cons.mp hy with rfl | hy2
        · exact hx2
        · exact hl1 y hy2, ha⟩

theorem oneOf_first_none (cfg : Cfg) (recf : RecFn) (inst : Json)
    (ictx sctx rctx : Ctx) (pb : Json → Bool) :
    ∀ (l : List Json) (n : Nat),
      (∀ s ∈ l, ∀ sctx2,
        recf inst (if 6 ≤ cfg.draft.number then bool_to_object_schema s else s)
          ictx sctx2 rctx .fastfail = if pb s then .ok [] else .stop) →
      (∀ s ∈ l, pb s = false) →
      oneOf_first cfg recf inst ictx sctx rctx (l.enumFrom n) = .noneMatched := by
  intro l
  induction l with
  | nil => intro n hv hnone; rfl
  | cons x xs ih =>
    intro n hv hnone
    simp only [List.enumFrom, oneOf_first]
    rw [hv x (by simp) (.num (.pos n) :: sctx), hnone x (by simp)]
    rw [if_neg (by simp)]
    exact ih (n + 1) (fun s hs => hv s (by simp [hs])) (fun s hs => hnone s (by simp [hs]))

theorem oneOf_first_found (cfg : Cfg) (recf : RecFn) (inst : Json)
    (ictx sctx rctx : Ctx) (pb : Json → Bool) :
    ∀ (l1 : List Json) (s0 : Json) (l2 : List Json) (n : Nat),
      (∀ s ∈ l1 ++ s0 :: l2, ∀ sctx2,
        recf inst (if 6 ≤ cfg.draft.number then bool_to_object_schema s else s)
          ictx sctx2 rctx .fastfail = if pb s then .ok [] else .stop) →
      (∀ s ∈ l1, pb s = false) → pb s0 = true →
      oneOf_first cfg recf inst ictx sctx rctx ((l1 ++ s0 :: l2).enumFrom n)
        = .found l2 := by
  intro l1
  induction l1 with
  | nil =>
    intro s0 l2 n hv hl1 hs0
    simp only [List.nil_append, List.enumFrom, oneOf_first]
    rw [hv s0 (by simp) (.num (.pos n) :: sctx), hs0]
    rw [if_pos rfl]
    rw [List.enumFrom_map_snd]
  | cons y l1 ih =>
    intro s0 l2 n hv hl1 hs0
    simp only [List.cons_append, List.enumFrom, oneOf_first]
    rw [hv y (by simp) (.num (.pos n) :: sctx), hl1 y (by simp)]
    rw [if_neg (by simp)]
    exact ih s0 l2 (n + 1) (fun s hs => hv s (by simp [List.mem_append] at hs ⊢; tauto))
      (fun s hs => hl1 s (by simp [hs])) hs0

theorem oneOf_second_none (cfg : Cfg) (recf : RecFn) (inst : Json)
    (ictx sctx rctx : Ctx) (pb : Json → Bool) :
    ∀ (l : List Json) (n : Nat),
      (∀ s ∈ l, ∀ sctx2,
        recf inst (bool_to_object_schema s) ictx sctx2 rctx .fastfail
          = if pb s then .ok [] else .stop) →
      (∀ s ∈ l, pb s = false) →
      oneOf_second cfg recf inst ictx sctx rctx (l.enumFrom n) = .nomore := by
  intro l
  induction l with
  | nil => intro n hv hnone; rfl
  | cons x xs ih =>
    intro n hv hnone
    simp only [List.enumFrom, oneOf_second]
    rw [hv x (by simp) (.num (.pos n) :: sctx), hnone x (by simp)]
    rw [if_neg (by simp)]
    exact ih (n + 1) (fun s hs => hv s (by simp [hs])) (fun s hs => hnone s (by simp [hs]))

theorem oneOf_second_more (cfg : Cfg) (recf : RecFn) (inst : Json)
    (ictx sctx rctx : Ctx) (pb : Json → Bool) :
    ∀ (l : List Json) (n : Nat),
      (∀ s ∈ l, ∀ sctx2,
        recf inst (bool_to_object_schema s) ictx sctx2 rctx .fastfail
          = if pb s then .ok [] else .stop) →
      l.any pb = true →
      oneOf_second cfg recf inst ictx sctx rctx (l.enumFrom n) = .foundMore := by
  intro l
  induction l with
  | nil => intro n hv hany; simp at hany
  | cons x xs ih =>
    intro n hv hany
    simp only [List.enumFrom, oneOf_second]
    rw [hv x (by simp) (.num (.pos n) :: sctx)]
    by_cases hx : pb x = true
    · rw [hx, if_pos rfl]
    · have hx2 : pb x = false := by simpa using hx
      have h2 : xs.any pb = true := by
        simp only [List.any_cons, hx2, Bool.false_or] at hany
        exact hany
      rw [hx2, if_neg (by simp)]
      exact ih (n + 1) (fun s hs => hv s (by simp [hs])) h2

/-- A normally-returning collect run determines the fast-fail verdict
at any instance and schema context: success exactly when no error was
recorded (by context-irrelevance of shapes plus mode coherence). -/
theorem descend_fastfail_verdict (ext : Ext) (cfg : Cfg) (f : Nat)
    (inst s : Json) (ictx sctx rctx : Ctx) (errs : List VErr)
    (h : descend ext cfg f inst s ictx sctx rctx .collect = .ok errs) :
    ∀ ictx2 sctx2, descend ext cfg f inst s ictx2 sctx2 rctx .fastfail
      = if errs = [] then .ok [] else .stop := by
  intro ictx2 sctx2
  have hsh := descend_shape ext cfg f inst s ictx sctx ictx2 sctx2 rctx .collect
  rw [h] at hsh
  rcases shape_cases hsh with ⟨e1, e2, he1, he2, hlen⟩ | ⟨he1, _⟩ | ⟨he1, _⟩ | ⟨he1, _⟩
  · injection he1 with he1
    subst he1
    have hff := descend_coh ext cfg f inst s ictx2 sctx2 rctx e2 he2
    rw [hff]
    cases errs with
    | nil =>
      cases e2 with
      | nil => simp
      | cons b bs => simp at hlen
    | cons a as =>
      cases e2 with
      | nil => simp at hlen
      | cons b bs => simp
  · exact absurd he1 (by simp)
  · exact absurd he1 (by simp)
  · exact absurd he1 (by simp)

theorem descend_bool_true_ff (ext : Ext) (cfg : Cfg) (g : Nat) (inst : Json)
    (ictx sctx rctx : Ctx) :
    descend ext cfg (g + 1) inst (.bool true) ictx sctx rctx .fastfail = .ok [] := rfl

theorem descend_bool_false_ff (ext : Ext) (cfg : Cfg) (g : Nat) (inst : Json)
    (ictx sctx rctx : Ctx) :
    descend ext cfg (g + 1) inst (.bool false) ictx sctx rctx .fastfail = .stop := rfl

theorem descend_empty_collect (ext : Ext) (cfg : Cfg) (g : Nat) (inst : Json)
    (ictx sctx rctx : Ctx) :
    descend ext cfg (g + 1) inst (.obj []) ictx sctx rctx .collect = .ok [] := rfl

theorem descend_notempty_one (ext : Ext) (cfg : Cfg) (inst : Json)
    (ictx sctx rctx : Ctx) (m : Mode) :
    descend ext cfg 1 inst (.obj [("not", .obj [])]) ictx sctx rctx m = .fuelout := by
  obtain ⟨d, root⟩ := cfg
  cases d <;> cases m <;> rfl

theorem descend_notempty_collect (ext : Ext) (cfg : Cfg) (g : Nat) (inst : Json)
    (ictx sctx rctx : Ctx) :
    descend ext cfg (g + 2) inst (.obj [("not", .obj [])]) ictx sctx rctx .collect
      = .ok [newWithContext "not" ictx (.str "not" :: sctx)] := by
  obtain ⟨d, root⟩ := cfg
  cases d <;> rfl

theorem descend_notempty_ff (ext : Ext) (cfg : Cfg) (g : Nat) (inst : Json)
    (ictx sctx rctx : Ctx) :
    descend ext cfg (g + 2) inst (.obj [("not", .obj [])]) ictx sctx rctx .fastfail
      = .stop := by
  obtain ⟨d, root⟩ := cfg
  cases d <;> rfl

/-- C6: for an array-valued oneOf whose (object-normalised) subschemas
all validate normally, the validator emits no error exactly when
exactly one subschema validates the instance; zero matches yield the
single "Nothing matched" error and two or more matches yield the single
"More than one matched" error. -/
theorem oneOf_exactly_one_match (ext : Ext) (cfg : Cfg) (f : Nat)
    (inst : Json) (subs : List Json) (parentm : Entries) (ictx sctx rctx : Ctx)
    (hall : ∀ s ∈ subs, ∃ errs,
      descend ext cfg f inst (bool_to_object_schema s) ictx sctx rctx .collect
        = .ok errs) :
    (oneOf ext cfg (descend ext cfg f) inst (.arr subs) parentm ictx sctx rctx .collect
        = .ok []
      ↔ subs.countP (fun s => decide (descend ext cfg f inst (bool_to_object_schema s)
            ictx sctx rctx .collect = RRes.ok [])) = 1)
    ∧ (subs.countP (fun s => decide (descend ext cfg f inst (bool_to_object_schema s)
          ictx sctx rctx .collect = RRes.ok [])) = 0 →
        oneOf ext cfg (descend ext cfg f) inst (.arr subs) parentm ictx sctx rctx .collect
          = .ok [newWithContext "Nothing matched in oneOf" ictx sctx])
    ∧ (2 ≤ subs.countP (fun s => decide (descend ext cfg f inst (bool_to_object_schema s)
          ictx sctx rctx .collect = RRes.ok [])) →
        oneOf ext cfg (descend ext cfg f) inst (.arr subs) parentm ictx sctx rctx .collect
          = .ok [newWithContext "More than one matched in oneOf" ictx sctx]) := by
  set pb : Json → Bool := fun s =>
    decide (descend ext cfg f inst (bool_to_object_schema s) ictx sctx rctx .collect
      = RRes.ok []) with hpb
  have hv1 : ∀ s ∈ subs, ∀ sctx2,
      descend ext cfg f inst (bool_to_object_schema s) ictx sctx2 rctx .fastfail
        = if pb s then .ok [] else .stop := by
    intro s hs sctx2
    obtain ⟨errs, he⟩ := hall s hs
    rw [descend_fastfail_verdict ext cfg f inst (bool_to_object_schema s) ictx sctx rctx
      errs he ictx sctx2]
    by_cases hp : errs = []
    · have hpbs : pb s = true := by simp [hpb, he, hp]
      rw [if_pos hp, hpbs, if_pos rfl]
    · have hpbs : pb s = false := by
        simp only [hpb, he, decide_eq_false_iff_not]
        intro hcon
        injection hcon with hcon
        exact hp hcon
      rw [if_neg hp, hpbs, if_neg (by simp)]
  have hv2 : ∀ s ∈ subs, ∀ sctx2,
      descend ext cfg f inst
          (if 6 ≤ cfg.draft.number then bool_to_object_schema s else s)
          ictx sctx2 rctx .fastfail
        = if pb s then .ok [] else .stop := by
    intro s hs sctx2
    by_cases hd : 6 ≤ cfg.draft.number
    · rw [if_pos hd]; exact hv1 s hs sctx2
    · rw [if_neg hd]
      obtain ⟨errs, he⟩ := hall s hs
      cases s with
      | bool b =>
        cases b
        · -- boolean false normalises to the not-empty schema
          cases f with
          | zero => exact absurd he (by simp [descend])
          | succ f1 =>
            cases f1 with
            | zero =>
              have he2 : descend ext cfg 1 inst (.obj [("not", .obj [])])
                  ictx sctx rctx .collect = .ok errs := he
              rw [descend_notempty_one] at he2
              exact absurd he2 (by simp)
            | succ f2 =>
              have hnc : descend ext cfg (f2 + 2) inst (.obj [("not", .obj [])])
                  ictx sctx rctx .collect
                  = .ok [newWithContext "not" ictx (.str "not" :: sctx)] :=
                descend_notempty_collect ext cfg f2 inst ictx sctx rctx
              have hpbs : pb (.bool false) = false := by
                simp only [hpb, decide_eq_false_iff_not]
                intro hcon
                have hcon2 : descend ext cfg (f2 + 2) inst (.obj [("not", .obj [])])
                    ictx sctx rctx .collect = RRes.ok [] := hcon
                rw [hnc] at hcon2
                injection hcon2 with hcon3
                exact absurd hcon3 (by simp)
              rw [hpbs, if_neg (by simp)]
              exact descend_bool_false_ff ext cfg (f2 + 1) inst ictx sctx2 rctx
        · -- boolean true normalises to the empty schema
          cases f with
          | zero => exact absurd he (by simp [descend])
          | succ f1 =>
            have hpbs : pb (.bool true) = true := by
              simp only [hpb, decide_eq_true_eq]
              exact descend_empty_collect ext cfg f1 inst ictx sctx rctx
            rw [hpbs, if_pos rfl]
            exact descend_bool_true_ff ext cfg f1 inst ictx sctx2 rctx
      | null => exact hv1 .null hs sctx2
      | num n => exact hv1 (.num n) hs sctx2
      | str st => exact hv1 (.str st) hs sctx2
      | arr l => exact hv1 (.arr l) hs sctx2
      | obj m => exact hv1 (.obj m) hs sctx2
  by_cases hany : subs.any pb = true
  · obtain ⟨l1, s0, l2, hsplit, hl1, hs0⟩ := exists_first_true subs hany
    subst hsplit
    have hfirst := oneOf_first_found cfg (descend ext cfg f) inst ictx sctx rctx pb
      l1 s0 l2 0 hv2 hl1 hs0
    have hcl1 : l1.countP pb = 0 := by
      rw [List.countP_eq_zero]
      intro a ha
      simp [hl1 a ha]
    have hcount : (l1 ++ s0 :: l2).countP pb = 1 + l2.countP pb := by
      rw [List.countP_append, List.countP_cons, hcl1, hs0, if_pos rfl]
      omega
    have hv1l2 : ∀ s ∈ l2, ∀ sctx2,
        descend ext cfg f inst (bool_to_object_schema s) ictx sctx2 rctx .fastfail
          = if pb s then .ok [] else .stop := by
      intro s hs sctx2
      exact hv1 s (by simp [List.mem_append, hs]) sctx2
    by_cases hany2 : l2.any pb = true
    · have hsec := oneOf_second_more cfg (descend ext cfg f) inst ictx sctx rctx pb
        l2 0 hv1l2 hany2
      have hres : oneOf ext cfg (descend ext cfg f) inst (.arr (l1 ++ s0 :: l2))
          parentm ictx sctx rctx .collect
          = .ok [newWithContext "More than one matched in oneOf" ictx sctx] := by
        simp only [oneOf, List.enum, hfirst, oneOf_tail, hsec, oneOf_tail2, recordE]
      have hc2 : 0 < l2.countP pb := by
        rw [List.countP_pos]
        obtain ⟨a, ha, hpa⟩ := List.any_eq_true.mp hany2
        exact ⟨a, ha, hpa⟩
      refine ⟨?_, ?_, ?_⟩
      · rw [hres]
        constructor
        · intro hcon; exact absurd hcon (by simp)
        · intro hcon; rw [hcount] at hcon; omega
      · intro hcon; rw [hcount] at hcon; omega
      · intro _; exact hres
    · have hnone2 : ∀ s ∈ l2, pb s = false := by
        intro s hs
        by_cases hp : pb s = true
        · exact absurd (List.any_eq_true.mpr ⟨s, hs, hp⟩) hany2
        · simpa using hp
      have hsec := oneOf_second_none cfg (descend ext cfg f) inst ictx sctx rctx pb
        l2 0 hv1l2 hnone2
      have hres : oneOf ext cfg (descend ext cfg f) inst (.arr (l1 ++ s0 :: l2))
          parentm ictx sctx rctx .collect = .ok [] := by
        simp only [oneOf, List.enum, hfirst, oneOf_tail, hsec, oneOf_tail2]
      have hcl2 : l2.countP pb = 0 := by
        rw [List.countP_eq_zero]
        intro a ha
        simp [hnone2 a ha]
      refine ⟨?_, ?_, ?_⟩
      · rw [hres, hcount, hcl2]
        simp
      · intro hcon; rw [hcount] at hcon; omega
      · intro hcon; rw [hcount, hcl2] at hcon; omega
  · have hnone : ∀ s ∈ subs, pb s = false := by
      intro s hs
      by_cases hp : pb s = true
      · exact absurd (List.any_eq_true.mpr ⟨s, hs, hp⟩) hany
      · simpa using hp
    have hfirst := oneOf_first_none cfg (descend ext cfg f) inst ictx sctx rctx pb
      subs 0 hv2 hnone
    have hres : oneOf ext cfg (descend ext cfg f) inst (.arr subs)
        parentm ictx sctx rctx .collect
        = .ok [newWithContext "Nothing matched in oneOf" ictx sctx] := by
      simp only [oneOf, List.enum, hfirst, oneOf_tail, recordE]
    have hc0 : subs.countP pb = 0 := by
      rw [List.countP_eq_zero]
      intro a ha
      simp [hnone a ha]
    refine ⟨?_, ?_, ?_⟩
    · rw [hres, hc0]
      constructor
      · intro hcon; exact absurd hcon (by simp)
      · intro hcon; omega
    · intro _; exact hres
    · intro hcon; rw [hc0] at hcon; omega

/-- C6 witness: instance 1 against the subschemas requiring minimum 5
and minimum 0: exactly the second matches, so oneOf succeeds. -/
theorem oneOf_exactly_one_match_witness :
    (oneOf extTest cfgTest (descend extTest cfgTest 2) (.num (.pos 1))
        (.arr [.obj [("minimum", .num (.pos 5))], .obj [("minimum", .num (.pos 0))]])
        [] [] [] [] .collect = .ok []
      ↔ ([.obj [("minimum", .num (.pos 5))],
          .obj [("minimum", .num (.pos 0))]] : List Json).countP
          (fun s => decide (descend extTest cfgTest 2 (.num (.pos 1))
            (bool_to_object_schema s) [] [] [] .collect = RRes.ok [])) = 1) := by
  have hall : ∀ s ∈ ([.obj [("minimum", .num (.pos 5))],
      .obj [("minimum", .num (.pos 0))]] : List Json), ∃ errs,
      descend extTest cfgTest 2 (.num (.pos 1)) (bool_to_object_schema s)
        [] [] [] .collect = .ok errs := by
    intro s hs
    rcases List.mem_cons.mp hs with rfl | hs2
    · exact ⟨[newWithContext "instance < minimum" [] [.str "minimum"]], rfl⟩
    · rcases List.mem_cons.mp hs2 with rfl | hs3
      · exact ⟨[], rfl⟩
      · simp at hs3
  exact (oneOf_exactly_one_match extTest cfgTest 2 (.num (.pos 1))
    [.obj [("minimum", .num (.pos 5))], .obj [("minimum", .num (.pos 0))]]
    [] [] [] [] hall).1

end JSV
